import Mathlib

/-!
Verification of the grid model and search engine of the shortest-path
visualizer (`src/components/pathfinder-visualizer.tsx`).

The component keeps a rectangular grid of cells, each carrying a `type`
(empty / wall / start / end / path / visited / current), lets the user
paint walls and the start/end markers (`handleCellClick`), and runs a
uniform-cost relaxation search (`dijkstra`) producing a path length and
a visited-cell count.

Modelling conventions:
* JavaScript numbers holding cell distances are either small non-negative
  integers or `Number.POSITIVE_INFINITY`; they are embedded as `Option Nat`
  with `none` standing for the infinite sentinel.
* Grid coordinates are embedded as `Int` so that out-of-bounds arithmetic
  (`row - 1` at row 0) behaves as in the source.
* `Array.prototype.sort` with the comparator `(a, b) => a.distance - b.distance`
  is embedded as a stable merge sort under the total preorder `distLe`
  (two infinite distances compare as equal, matching the comparator's
  treatment of equal-rank elements).
* A React state updater that would throw a `TypeError` (indexing the grid
  out of bounds) never commits any state; such operations are embedded as
  returning `none`.
* The in-place mutation of cell objects inside `dijkstra` is embedded as
  explicit state passing over `RunState`.
-/

namespace PathFinder

/-- The `CellType` union of the source; `end` is a Lean keyword, so the
constructor is written with guillemets. -/
inductive CellType where
  | empty
  | wall
  | start
  | «end»
  | path
  | visited
  | current
deriving DecidableEq

/-- A grid coordinate `(row, col)`. -/
abbrev Pos := Int × Int

/-- The component's cell matrix, keeping each cell's `type` field.  The
search-specific fields (`distance`, `previous`, `isVisited`) are reset and
used only inside a run and are embedded in `RunState`. -/
abbrev GridM := List (List CellType)

/-- `GRID_ROWS` constant of the source. -/
def GRID_ROWS : Nat := 25

/-- `GRID_COLS` constant of the source. -/
def GRID_COLS : Nat := 50

/-- JavaScript array read `l[i]`: a negative or too-large index yields
`undefined` (`none`). -/
def listGet? {α : Type} (l : List α) (i : Int) : Option α :=
  if i < 0 then none else l.get? i.toNat

/-- JavaScript array write `l[i] = a` for an index known to be in bounds. -/
def listSet {α : Type} (l : List α) (i : Int) (a : α) : List α :=
  if i < 0 then l else l.set i.toNat a

/-- `grid[row][col]`, `undefined` when out of bounds. -/
def getCell? (g : GridM) (row col : Int) : Option CellType :=
  match listGet? g row with
  | none => none
  | some r => listGet? r col

/-- `grid[row][col].type = t` for in-bounds coordinates (out-of-bounds
coordinates leave the matrix unchanged; `setCell?` guards them). -/
def setCellD (g : GridM) (row col : Int) (t : CellType) : GridM :=
  match listGet? g row with
  | none => g
  | some r => listSet g row (listSet r col t)

/-- `grid[row][col].type = t`: fails (the source throws a `TypeError`)
when `(row, col)` is out of bounds. -/
def setCell? (g : GridM) (row col : Int) (t : CellType) : Option GridM :=
  match getCell? g row col with
  | none => none
  | some _ => some (setCellD g row col t)

/-- The `drawMode` state of the component. -/
inductive DrawMode where
  | wall
  | start
  | «end»
deriving DecidableEq

/-- The component state visible to the grid-model operations: the cell
matrix, the recorded start/end coordinates, the run statistics, the
running flag, the selected draw mode and whether an animation timeout is
pending (`animationRef.current !== null`). -/
structure ComponentState where
  grid : GridM
  startCell : Option Pos
  endCell : Option Pos
  pathLength : Option Nat
  visitedCount : Nat
  isRunning : Bool
  drawMode : DrawMode
  pendingTimeout : Bool
deriving DecidableEq

/-- `initializeGrid`: builds the all-empty `GRID_ROWS × GRID_COLS` matrix,
places the default start `(12, 10)` and end `(12, 40)`, records them and
clears the statistics.  It does not touch `isRunning`, `drawMode` or the
animation ref. -/
def initializeGrid (s : ComponentState) : ComponentState :=
  let g0 : GridM := List.replicate GRID_ROWS (List.replicate GRID_COLS CellType.empty)
  let g2 := setCellD (setCellD g0 12 10 CellType.start) 12 40 CellType.«end»
  { s with
    grid := g2
    startCell := some (12, 10)
    endCell := some (12, 40)
    pathLength := none
    visitedCount := 0 }

/-- The component state right after mount: fresh `useState` defaults
followed by the `initializeGrid` effect. -/
def initialState : ComponentState :=
  initializeGrid
    { grid := []
      startCell := none
      endCell := none
      pathLength := none
      visitedCount := 0
      isRunning := false
      drawMode := DrawMode.wall
      pendingTimeout := false }

/-- `handleCellClick(row, col)`: rejected while a run is in progress;
otherwise paints according to `drawMode`.  In `start`/`end` mode the prior
holder is reverted to `empty` before the target is assigned and the
recorded coordinates updated; in `wall` mode the target toggles between
`empty` and `wall` and any other type is left unchanged.  An out-of-bounds
target (or an out-of-bounds recorded prior holder) makes the source throw
inside the state updater, so no state is committed: embedded as `none`. -/
def handleCellClick (s : ComponentState) (row col : Int) : Option ComponentState :=
  if s.isRunning then some s
  else
    match getCell? s.grid row col with
    | none => none
    | some cellT =>
      match s.drawMode with
      | DrawMode.start =>
        (match s.startCell with
         | none => some s.grid
         | some p => setCell? s.grid p.1 p.2 CellType.empty).bind fun g1 =>
        (setCell? g1 row col CellType.start).map fun g2 =>
          { s with grid := g2, startCell := some (row, col) }
      | DrawMode.«end» =>
        (match s.endCell with
         | none => some s.grid
         | some p => setCell? s.grid p.1 p.2 CellType.empty).bind fun g1 =>
        (setCell? g1 row col CellType.«end»).map fun g2 =>
          { s with grid := g2, endCell := some (row, col) }
      | DrawMode.wall =>
        if cellT = CellType.empty then
          (setCell? s.grid row col CellType.wall).map fun g2 => { s with grid := g2 }
        else if cellT = CellType.wall then
          (setCell? s.grid row col CellType.empty).map fun g2 => { s with grid := g2 }
        else
          some s

/-- `clearPath`: rejected while running; otherwise reverts every transient
render type to `empty` and clears the statistics. -/
def clearPath (s : ComponentState) : ComponentState :=
  if s.isRunning then s
  else
    { s with
      grid := s.grid.map (fun r => r.map (fun t =>
        if t = CellType.path ∨ t = CellType.visited ∨ t = CellType.current then CellType.empty else t))
      pathLength := none
      visitedCount := 0 }

/-- `resetGrid`: rejected while running; otherwise clears any pending
animation timeout and reinitializes the grid. -/
def resetGrid (s : ComponentState) : ComponentState :=
  if s.isRunning then s
  else initializeGrid { s with pendingTimeout := false }

/-- Number of cells of the matrix with the given type. -/
def countType (g : GridM) (t : CellType) : Nat :=
  (g.map (fun r => r.count t)).sum

/-! ## Search engine (`getNeighbors` and `dijkstra`) -/

/-- `getNeighbors`: the up / right / down / left neighbors of a cell, in
that fixed order, dropping any coordinate outside
`[0, rows) × [0, cols)`. -/
def getNeighbors (rows cols : Nat) (p : Pos) : List Pos :=
  [((-1 : Int), (0 : Int)), (0, 1), (1, 0), (0, -1)].filterMap fun d =>
    let newRow := p.1 + d.1
    let newCol := p.2 + d.2
    if 0 ≤ newRow ∧ newRow < (rows : Int) ∧ 0 ≤ newCol ∧ newCol < (cols : Int) then
      some (newRow, newCol)
    else
      none

/-- A coordinate lies inside the `rows × cols` grid. -/
def inBounds (rows cols : Nat) (p : Pos) : Prop :=
  0 ≤ p.1 ∧ p.1 < (rows : Int) ∧ 0 ≤ p.2 ∧ p.2 < (cols : Int)

instance (rows cols : Nat) (p : Pos) : Decidable (inBounds rows cols p) := by
  unfold inBounds; infer_instance

/-- Manhattan distance between two coordinates. -/
def manhattan (p q : Pos) : Nat :=
  (p.1 - q.1).natAbs + (p.2 - q.2).natAbs

/-- Whether the cell at `p` is a wall in the grid snapshot the run copies
(the run's reset maps only `path`/`visited`/`current` to `empty`, so a
cell is a wall in the working copy exactly when it is one in the
snapshot).  Out-of-bounds positions are not walls. -/
def isWallAt (g : GridM) (p : Pos) : Bool :=
  match getCell? g p.1 p.2 with
  | some CellType.wall => true
  | _ => false

/-- No cell of the matrix is a wall. -/
def noWalls (g : GridM) : Bool :=
  g.all fun r => r.all fun t => t ≠ CellType.wall

/-- The comparator order on distances: `a.distance - b.distance`, with the
infinite sentinel greater than every finite value and tied with itself. -/
def distLe : Option Nat → Option Nat → Bool
  | some a, some b => a ≤ b
  | some _, none => true
  | none, some _ => false
  | none, none => true

/-- `tentativeDistance < neighbor.distance` with a finite tentative
distance on the left. -/
def distLtN (t : Nat) : Option Nat → Bool
  | some b => t < b
  | none => true

/-- The mutable search state of one `dijkstra` run: the per-cell
`distance`, `previous` and `isVisited` fields of the working copy, the
`unvisitedNodes` array, the `visitedCounter`, and the sequence of
finalized cells with the distance each held when finalized. -/
structure RunState where
  dist : Pos → Option Nat
  prev : Pos → Option Pos
  visitedFlag : Pos → Bool
  pool : List Pos
  counter : Nat
  trace : List (Pos × Nat)

/-- One relaxation: skip a finalized or wall neighbor, otherwise update
its distance and predecessor when `du + 1` improves on it. -/
def relaxCell (wall : Pos → Bool) (u : Pos) (du : Nat) (st : RunState) (w : Pos) : RunState :=
  if st.visitedFlag w || wall w then st
  else if distLtN (du + 1) (st.dist w) then
    { st with
      dist := fun p => if p = w then some (du + 1) else st.dist p
      prev := fun p => if p = w then some u else st.prev p }
  else st

/-- Relax every neighbor of the newly finalized cell, in the fixed
up / right / down / left order. -/
def relaxAll (wall : Pos → Bool) (u : Pos) (du : Nat) (nbrs : List Pos) (st : RunState) : RunState :=
  nbrs.foldl (relaxCell wall u du) st

/-- How the main loop ended: the end cell was finalized, the minimum
remaining distance was infinite (the `break`), or the unvisited pool was
exhausted. -/
inductive TermReason where
  | reachedEnd
  | infiniteMin
  | poolEmpty
deriving DecidableEq

/-- The observable outcome of a run: the reported statistics, the
reconstructed path (start to end), the `path` render events (the cells
strictly between start and end), the finalization trace, how the loop
ended, and the final search state. -/
structure RunResult where
  pathLength : Option Nat
  visitedCount : Nat
  path : List Pos
  pathEvents : List Pos
  trace : List (Pos × Nat)
  reason : TermReason
  final : RunState

/-- Path reconstruction: follow `previous` links backward from a cell,
collecting cells in start-to-end order (the source `unshift`s into the
front of the array).  The fuel bounds the walk; every run supplies more
fuel than the length of any predecessor chain. -/
def reconstruct (prev : Pos → Option Pos) : Nat → Pos → List Pos
  | 0, p => [p]
  | fuel + 1, p =>
    match prev p with
    | none => [p]
    | some q => reconstruct prev fuel q ++ [p]

/-- The main `while (unvisitedNodes.length > 0)` loop: sort the pool by
distance, shift the closest node, `break` on an infinite minimum,
finalize the node, stop with path reconstruction when it is the end cell,
otherwise relax its neighbors and continue.  `rfuel` is the
reconstruction fuel; `fuel` bounds the iterations and is instantiated
with the pool length, which decreases by exactly one per iteration. -/
def loop (wall : Pos → Bool) (nbrs : Pos → List Pos) (endP : Pos) (rfuel : Nat) :
    Nat → RunState → RunResult
  | 0, st => ⟨none, st.counter, [], [], st.trace, TermReason.poolEmpty, st⟩
  | fuel + 1, st =>
    match st.pool.mergeSort (fun a b => distLe (st.dist a) (st.dist b)) with
    | [] => ⟨none, st.counter, [], [], st.trace, TermReason.poolEmpty, st⟩
    | u :: rest =>
      match st.dist u with
      | none => ⟨none, st.counter, [], [], st.trace, TermReason.infiniteMin, { st with pool := rest }⟩
      | some du =>
        let st1 : RunState :=
          { st with
            visitedFlag := fun p => if p = u then true else st.visitedFlag p
            pool := rest
            counter := st.counter + 1
            trace := st.trace ++ [(u, du)] }
        if u = endP then
          let path := reconstruct st1.prev rfuel u
          ⟨some (path.length - 1), st1.counter, path, (path.drop 1).dropLast, st1.trace,
            TermReason.reachedEnd, st1⟩
        else
          loop wall nbrs endP rfuel fuel (relaxAll wall u du (nbrs u) st1)

/-- The `unvisitedNodes` array right after the reset: every non-wall cell
in row-major order. -/
def initialPool (g : GridM) (rows cols : Nat) : List Pos :=
  (List.range rows).flatMap fun (r : Nat) =>
    (List.range cols).filterMap fun (c : Nat) =>
      if isWallAt g (((r : Nat) : Int), ((c : Nat) : Int)) then none
      else some (((r : Nat) : Int), ((c : Nat) : Int))

/-- The working copy right after the reset: the start cell at distance 0,
every other cell at the infinite sentinel, no predecessors, nothing
visited. -/
def initState (g : GridM) (rows cols : Nat) (s : Pos) : RunState :=
  { dist := fun p => if p = s then some 0 else none
    prev := fun _ => none
    visitedFlag := fun _ => false
    pool := initialPool g rows cols
    counter := 0
    trace := [] }

/-- `dijkstra` on a grid snapshot with the recorded start and end cells
(the source returns early when either is missing; the claims all assume
both are set). -/
def dijkstra (g : GridM) (rows cols : Nat) (s e : Pos) : RunResult :=
  loop (isWallAt g) (getNeighbors rows cols) e (rows * cols)
    (initState g rows cols s).pool.length (initState g rows cols s)

/-- The run as the component invokes it, on the fixed 25 × 50 grid. -/
def dijkstraRun (g : GridM) (s e : Pos) : RunResult :=
  dijkstra g GRID_ROWS GRID_COLS s e

/-! ## Basic lemmas about indexing and mutation -/

theorem listGet?_listSet_self {α : Type} {l : List α} {i : Int} {a : α} (b : α)
    (h : listGet? l i = some a) : listGet? (listSet l i b) i = some b := by
  unfold listGet? listSet at *
  by_cases hi : i < 0
  · simp [if_pos hi] at h
  · simp only [if_neg hi, List.get?_eq_getElem?] at h ⊢
    have hlt : i.toNat < l.length := by
      by_contra hge
      rw [List.getElem?_eq_none (by omega)] at h
      exact absurd h (by simp)
    exact List.getElem?_set_self hlt

theorem listGet?_listSet_ne {α : Type} {l : List α} {i j : Int} (b : α)
    (hij : i ≠ j) : listGet? (listSet l i b) j = listGet? l j := by
  unfold listGet? listSet
  by_cases hi : i < 0
  · simp only [if_pos hi]
  · simp only [if_neg hi]
    by_cases hj : j < 0
    · simp only [if_pos hj]
    · simp only [if_neg hj, List.get?_eq_getElem?]
      exact List.getElem?_set_ne (by omega)

theorem listSet_listSet_same {α : Type} {l : List α} {i : Int} (a b : α) :
    listSet (listSet l i a) i b = listSet l i b := by
  unfold listSet
  by_cases hi : i < 0
  · simp only [if_pos hi]
  · simp only [if_neg hi, List.set_set]

theorem set_self_of_getElem? {α : Type} {l : List α} {n : Nat} {a : α}
    (h : l[n]? = some a) : l.set n a = l := by
  induction l generalizing n with
  | nil => simp at h
  | cons x t ih =>
    cases n with
    | zero => simp at h; simp [List.set, h]
    | succ m => simp at h; simp [List.set, ih h]

theorem listSet_self_of_listGet? {α : Type} {l : List α} {i : Int} {a : α}
    (h : listGet? l i = some a) : listSet l i a = l := by
  unfold listGet? listSet at *
  split at h
  · exact absurd h (by simp)
  · rename_i hneg
    rw [if_neg hneg]
    rw [List.get?_eq_getElem?] at h
    exact set_self_of_getElem? h

theorem getCell?_setCellD_self {g : GridM} {row col : Int} {a : CellType} (b : CellType)
    (h : getCell? g row col = some a) : getCell? (setCellD g row col b) row col = some b := by
  cases hr : listGet? g row with
  | none => simp [getCell?, hr] at h
  | some r =>
    simp only [getCell?, hr] at h
    simp only [getCell?, setCellD, hr, listGet?_listSet_self (listSet r col b) hr]
    exact listGet?_listSet_self b h

theorem getCell?_setCellD_ne {g : GridM} {row col row' col' : Int} (b : CellType)
    (hne : (row', col') ≠ (row, col)) :
    getCell? (setCellD g row col b) row' col' = getCell? g row' col' := by
  cases hr : listGet? g row with
  | none => simp only [setCellD, hr]
  | some r =>
    simp only [setCellD, hr]
    by_cases hrow : row' = row
    · subst hrow
      have hcol : col' ≠ col := fun hc => hne (by simp [hc])
      simp only [getCell?, listGet?_listSet_self (listSet r col b) hr, hr]
      exact listGet?_listSet_ne b (fun h => hcol h.symm)
    · simp only [getCell?, listGet?_listSet_ne (listSet r col b) (fun h => hrow h.symm)]

theorem getCell?_setCellD_isSome {g : GridM} (row col : Int) {row' col' : Int} {a : CellType} (b : CellType)
    (h : getCell? g row' col' = some a) :
    ∃ x, getCell? (setCellD g row col b) row' col' = some x := by
  by_cases hne : (row', col') = (row, col)
  · obtain ⟨h1, h2⟩ := Prod.mk.injEq .. ▸ hne
    subst h1; subst h2
    exact ⟨b, getCell?_setCellD_self b h⟩
  · exact ⟨a, (getCell?_setCellD_ne b hne).trans h⟩

theorem setCellD_setCellD_same {g : GridM} {row col : Int} (a b : CellType) :
    setCellD (setCellD g row col a) row col b = setCellD g row col b := by
  cases hr : listGet? g row with
  | none => simp only [setCellD, hr]
  | some r =>
    simp only [setCellD, hr, listGet?_listSet_self (listSet r col a) hr, listSet_listSet_same]

theorem setCellD_self_of_getCell? {g : GridM} {row col : Int} {a : CellType}
    (h : getCell? g row col = some a) : setCellD g row col a = g := by
  cases hr : listGet? g row with
  | none => simp only [setCellD, hr]
  | some r =>
    simp only [getCell?, hr] at h
    simp only [setCellD, hr, listSet_self_of_listGet? h]
    exact listSet_self_of_listGet? hr

theorem mem_getNeighbors {rows cols : Nat} {p q : Pos} :
    q ∈ getNeighbors rows cols p ↔
      inBounds rows cols q ∧
        (q = (p.1 - 1, p.2) ∨ q = (p.1, p.2 + 1) ∨ q = (p.1 + 1, p.2) ∨ q = (p.1, p.2 - 1)) := by
  simp only [getNeighbors, List.mem_filterMap, List.mem_cons, List.not_mem_nil, or_false]
  constructor
  · rintro ⟨d, hd, hq⟩
    rcases hd with h | h | h | h <;> subst h <;>
      · simp only at hq
        split at hq
        · rename_i hb
          cases hq
          refine ⟨⟨by omega, by omega, by omega, by omega⟩, by simp [Prod.ext_iff] <;> omega⟩
        · exact absurd hq (by simp)
  · rintro ⟨hb, hq | hq | hq | hq⟩ <;> subst hq
    · exact ⟨((-1 : Int), (0 : Int)), Or.inl rfl, by
        simp only
        rw [if_pos]
        · simp [Prod.ext_iff] <;> omega
        · obtain ⟨h1, h2, h3, h4⟩ := hb; refine ⟨by omega, by omega, by omega, by omega⟩⟩
    · exact ⟨((0 : Int), (1 : Int)), Or.inr (Or.inl rfl), by
        simp only
        rw [if_pos]
        · simp [Prod.ext_iff] <;> omega
        · obtain ⟨h1, h2, h3, h4⟩ := hb; refine ⟨by omega, by omega, by omega, by omega⟩⟩
    · exact ⟨((1 : Int), (0 : Int)), Or.inr (Or.inr (Or.inl rfl)), by
        simp only
        rw [if_pos]
        · simp [Prod.ext_iff] <;> omega
        · obtain ⟨h1, h2, h3, h4⟩ := hb; refine ⟨by omega, by omega, by omega, by omega⟩⟩
    · exact ⟨((0 : Int), (-1 : Int)), Or.inr (Or.inr (Or.inr rfl)), by
        simp only
        rw [if_pos]
        · simp [Prod.ext_iff] <;> omega
        · obtain ⟨h1, h2, h3, h4⟩ := hb; refine ⟨by omega, by omega, by omega, by omega⟩⟩

end PathFinder

namespace PathFinder

/-! ## Claim C6: wall mode toggles empty and wall, never start or end -/

/-- C6: for an in-bounds cell, painting in wall mode turns an `empty`
cell into a `wall`, a `wall` cell into `empty`, and leaves the state
unchanged when the cell currently holds the `start` or `end` marker. -/
theorem wall_mode_toggle (s : ComponentState) (row col : Int)
    (hrun : s.isRunning = false) (hmode : s.drawMode = DrawMode.wall) :
    (getCell? s.grid row col = some CellType.empty →
      handleCellClick s row col = some { s with grid := setCellD s.grid row col CellType.wall }) ∧
    (getCell? s.grid row col = some CellType.wall →
      handleCellClick s row col = some { s with grid := setCellD s.grid row col CellType.empty }) ∧
    (getCell? s.grid row col = some CellType.start → handleCellClick s row col = some s) ∧
    (getCell? s.grid row col = some CellType.«end» → handleCellClick s row col = some s) := by
  refine ⟨fun h => ?_, fun h => ?_, fun h => ?_, fun h => ?_⟩ <;>
    simp [handleCellClick, hrun, hmode, h, setCell?]

/-- Concrete instance of `wall_mode_toggle` on the freshly initialized
grid: cell (0,0) is empty and becomes a wall; cell (12,10) is the start
marker and is untouched. -/
theorem wall_mode_toggle_witness :
    handleCellClick initialState 0 0 =
      some { initialState with grid := setCellD initialState.grid 0 0 CellType.wall } ∧
    handleCellClick initialState 12 10 = some initialState := by
  have h0 := wall_mode_toggle initialState 0 0 rfl rfl
  have h1 := wall_mode_toggle initialState 12 10 rfl rfl
  exact ⟨h0.1 (by decide), h1.2.2.1 (by decide)⟩

/-! ## Claim C8: out-of-bounds coordinates are rejected, never wrapped -/

/-- C8: a paint at out-of-bounds coordinates produces no successor state
(the source throws inside the updater before any state commits), and
every cell returned by the neighbor computation is in bounds and exactly
one step away from its origin — no coordinate is wrapped or clamped. -/
theorem oob_rejected_neighbors_bounded (s : ComponentState) (row col : Int)
    (rows cols : Nat) (p q : Pos) :
    (s.isRunning = false → getCell? s.grid row col = none → handleCellClick s row col = none) ∧
    (q ∈ getNeighbors rows cols p →
      inBounds rows cols q ∧ (q.1 - p.1).natAbs + (q.2 - p.2).natAbs = 1) := by
  constructor
  · intro hrun hcell
    simp [handleCellClick, hrun, hcell]
  · intro hq
    obtain ⟨hb, hd⟩ := mem_getNeighbors.mp hq
    refine ⟨hb, ?_⟩
    rcases hd with h | h | h | h <;> subst h <;> simp <;> omega

/-- Concrete instance of `oob_rejected_neighbors_bounded`: painting at
row -1 is rejected on the initial grid, and (0,1) is a neighbor of the
corner (0,0) that lies in bounds one step away. -/
theorem oob_rejected_neighbors_bounded_witness :
    handleCellClick initialState (-1) 0 = none ∧
      inBounds 25 50 ((0 : Int), (1 : Int)) := by
  have h := oob_rejected_neighbors_bounded initialState (-1) 0 25 50
    ((0 : Int), (0 : Int)) ((0 : Int), (1 : Int))
  exact ⟨h.1 rfl (by decide), (h.2 (by decide)).1⟩

/-! ## Claim C3: clear/reset during a run do not cancel it -/

/-- A component state mid-run with one scheduled animation event. -/
def runningState : ComponentState :=
  { initialState with isRunning := true, pendingTimeout := true }

/-- C3 counterexample: with a run in progress and an animation timeout
pending, `clearPath` and `resetGrid` leave the state — including the
pending scheduled event — completely unchanged, so the in-flight run is
not cancelled and its pending events are not discarded. -/
theorem clear_reset_cancellation_cex :
    runningState.isRunning = true ∧
      (clearPath runningState).pendingTimeout ≠ false ∧
      (resetGrid runningState).pendingTimeout ≠ false ∧
      clearPath runningState = runningState ∧
      resetGrid runningState = runningState :=
  ⟨rfl, by decide, by decide, rfl, rfl⟩

/-- C3 (amended): a clear or reset requested while a run is in progress
is rejected as a no-op — the run is not cancelled and pending scheduled
events are not discarded; only a `resetGrid` issued while idle clears the
pending animation timeout. -/
theorem clear_reset_noop_while_running (s : ComponentState) :
    (s.isRunning = true → clearPath s = s ∧ resetGrid s = s) ∧
    (s.isRunning = false →
      (resetGrid s).pendingTimeout = false ∧ (resetGrid s).isRunning = false) := by
  constructor
  · intro h
    constructor <;> simp [clearPath, resetGrid, h]
  · intro h
    constructor <;> simp [resetGrid, initializeGrid, h]

/-- Concrete instance of `clear_reset_noop_while_running`: the mid-run
state is untouched by `clearPath`, and an idle `resetGrid` clears the
pending timeout. -/
theorem clear_reset_noop_witness :
    clearPath runningState = runningState ∧
      (resetGrid { runningState with isRunning := false }).pendingTimeout = false :=
  ⟨((clear_reset_noop_while_running runningState).1 rfl).1,
   ((clear_reset_noop_while_running { runningState with isRunning := false }).2 rfl).1⟩

end PathFinder


namespace PathFinder

/-! ## Claim C7: paint idempotence -/

theorem paint_start_twice (s : ComponentState) (row col : Int)
    (hmode : s.drawMode = DrawMode.start) :
    (handleCellClick s row col).bind (fun s1 => handleCellClick s1 row col) =
      handleCellClick s row col := by
  by_cases hrun : s.isRunning
  · simp [handleCellClick, hrun]
  · simp only [Bool.not_eq_true] at hrun
    cases hc : getCell? s.grid row col with
    | none => simp [handleCellClick, hrun, hc]
    | some t =>
      cases hsc : s.startCell with
      | none =>
        simp only [handleCellClick, hrun, hc, hsc, hmode, Bool.false_eq_true, if_false,
          Option.some_bind, setCell?, getCell?_setCellD_self CellType.start hc,
          getCell?_setCellD_self CellType.empty (getCell?_setCellD_self CellType.start hc),
          Option.map_some', setCellD_setCellD_same,
          getCell?_setCellD_self CellType.empty hc]
      | some p =>
        cases hp : getCell? s.grid p.1 p.2 with
        | none =>
          simp only [handleCellClick, hrun, hc, hsc, hmode, Bool.false_eq_true, if_false,
            Option.some_bind, setCell?, hp, Option.none_bind]
        | some tp =>
          obtain ⟨x, hx⟩ := getCell?_setCellD_isSome p.1 p.2 CellType.empty hc
          simp only [handleCellClick, hrun, hc, hsc, hmode, Bool.false_eq_true, if_false,
            Option.some_bind, setCell?, hp, hx, Option.map_some',
            getCell?_setCellD_self CellType.start hx,
            getCell?_setCellD_self CellType.empty (getCell?_setCellD_self CellType.start hx),
            setCellD_setCellD_same,
            getCell?_setCellD_self CellType.empty hx]


theorem paint_end_twice (s : ComponentState) (row col : Int)
    (hmode : s.drawMode = DrawMode.«end») :
    (handleCellClick s row col).bind (fun s1 => handleCellClick s1 row col) =
      handleCellClick s row col := by
  by_cases hrun : s.isRunning
  · simp [handleCellClick, hrun]
  · simp only [Bool.not_eq_true] at hrun
    cases hc : getCell? s.grid row col with
    | none => simp [handleCellClick, hrun, hc]
    | some t =>
      cases hsc : s.endCell with
      | none =>
        simp only [handleCellClick, hrun, hc, hsc, hmode, Bool.false_eq_true, if_false,
          Option.some_bind, setCell?, getCell?_setCellD_self CellType.«end» hc,
          getCell?_setCellD_self CellType.empty (getCell?_setCellD_self CellType.«end» hc),
          Option.map_some', setCellD_setCellD_same,
          getCell?_setCellD_self CellType.empty hc]
      | some p =>
        cases hp : getCell? s.grid p.1 p.2 with
        | none =>
          simp only [handleCellClick, hrun, hc, hsc, hmode, Bool.false_eq_true, if_false,
            Option.some_bind, setCell?, hp, Option.none_bind]
        | some tp =>
          obtain ⟨x, hx⟩ := getCell?_setCellD_isSome p.1 p.2 CellType.empty hc
          simp only [handleCellClick, hrun, hc, hsc, hmode, Bool.false_eq_true, if_false,
            Option.some_bind, setCell?, hp, hx, Option.map_some',
            getCell?_setCellD_self CellType.«end» hx,
            getCell?_setCellD_self CellType.empty (getCell?_setCellD_self CellType.«end» hx),
            setCellD_setCellD_same,
            getCell?_setCellD_self CellType.empty hx]

theorem paint_wall_twice (s : ComponentState) (row col : Int)
    (hmode : s.drawMode = DrawMode.wall) :
    (handleCellClick s row col).bind (fun s1 => handleCellClick s1 row col) =
      (handleCellClick s row col).map (fun _ => s) := by
  obtain ⟨g, sc, ec, pl, vc, ir, dm, pt⟩ := s
  simp only at hmode
  subst hmode
  cases ir with
  | true => simp [handleCellClick]
  | false =>
    cases hc : getCell? g row col with
    | none => simp [handleCellClick, hc]
    | some t =>
      cases t with
      | empty =>
        simp [handleCellClick, hc, setCell?,
          getCell?_setCellD_self CellType.wall hc, setCellD_setCellD_same,
          setCellD_self_of_getCell? hc]
      | wall =>
        simp [handleCellClick, hc, setCell?,
          getCell?_setCellD_self CellType.empty hc, setCellD_setCellD_same,
          setCellD_self_of_getCell? hc]
      | start => simp [handleCellClick, hc]
      | «end» => simp [handleCellClick, hc]
      | path => simp [handleCellClick, hc]
      | visited => simp [handleCellClick, hc]
      | current => simp [handleCellClick, hc]

/-- C7 (amended): the paint operation is idempotent in `start` and `end`
mode; in `wall` mode it is an involution — a second application restores
the state preceding the first, so on an empty or wall cell two
applications differ from one. -/
theorem paint_idempotent_except_wall_toggle (s : ComponentState) (row col : Int) :
    ((s.drawMode = DrawMode.start ∨ s.drawMode = DrawMode.«end») →
      (handleCellClick s row col).bind (fun s1 => handleCellClick s1 row col) =
        handleCellClick s row col) ∧
    (s.drawMode = DrawMode.wall →
      (handleCellClick s row col).bind (fun s1 => handleCellClick s1 row col) =
        (handleCellClick s row col).map (fun _ => s)) :=
  ⟨fun h => h.elim (paint_start_twice s row col) (paint_end_twice s row col),
   paint_wall_twice s row col⟩

/-- C7 counterexample: painting cell (0,0) of the freshly initialized
grid twice in wall mode leaves it empty again, while painting it once
makes it a wall, so paint is not idempotent in wall mode. -/
theorem paint_not_idempotent_cex :
    ((handleCellClick initialState 0 0).bind fun s1 => handleCellClick s1 0 0) ≠
      handleCellClick initialState 0 0 := by decide

/-- Concrete instance of `paint_idempotent_except_wall_toggle` at cell
(0,0) of the initialized grid, in start mode and in wall mode. -/
theorem paint_idempotent_witness :
    ((handleCellClick { initialState with drawMode := DrawMode.start } 0 0).bind
        fun s1 => handleCellClick s1 0 0) =
      handleCellClick { initialState with drawMode := DrawMode.start } 0 0 ∧
    ((handleCellClick initialState 0 0).bind fun s1 => handleCellClick s1 0 0) =
      (handleCellClick initialState 0 0).map fun _ => initialState :=
  ⟨(paint_idempotent_except_wall_toggle _ 0 0).1 (Or.inl rfl),
   (paint_idempotent_except_wall_toggle initialState 0 0).2 rfl⟩

end PathFinder


namespace PathFinder

/-! ## Claim C4: exactly one start and one end cell -/

theorem count_set_add {α : Type} [DecidableEq α] {l : List α} {j : Nat} {x : α} (b t : α)
    (h : l[j]? = some x) :
    (l.set j b).count t + (if x = t then 1 else 0) = l.count t + (if b = t then 1 else 0) := by
  induction l generalizing j with
  | nil => simp at h
  | cons a tl ih =>
    cases j with
    | zero =>
      have hx : a = x := by simpa using h
      simp only [List.set_cons_zero, List.count_cons, beq_iff_eq, ← hx]
      by_cases hb : b = t <;> by_cases ha : a = t <;> simp [hb, ha]
    | succ m =>
      simp only [List.getElem?_cons_succ] at h
      have := ih h
      simp only [List.set_cons_succ, List.count_cons, beq_iff_eq]
      by_cases ha : a = t <;> simp [ha] <;> omega

theorem sum_set_add {l : List Nat} {i : Nat} {v : Nat} (y : Nat) (h : l[i]? = some v) :
    (l.set i y).sum + v = l.sum + y := by
  induction l generalizing i with
  | nil => simp at h
  | cons a tl ih =>
    cases i with
    | zero =>
      have hx : a = v := by simpa using h
      simp only [List.set_cons_zero, List.sum_cons, ← hx]
      omega
    | succ m =>
      simp only [List.getElem?_cons_succ] at h
      have := ih h
      simp only [List.set_cons_succ, List.sum_cons]
      omega

theorem sum_ge_of_getElem? {l : List Nat} {i : Nat} {v : Nat} (h : l[i]? = some v) :
    v ≤ l.sum := by
  induction l generalizing i with
  | nil => simp at h
  | cons a tl ih =>
    cases i with
    | zero =>
      have hx : a = v := by simpa using h
      simp only [List.sum_cons, ← hx]
      omega
    | succ m =>
      simp only [List.getElem?_cons_succ] at h
      have := ih h
      simp only [List.sum_cons]
      omega

theorem sum_ge_two_of_getElem? {l : List Nat} {i j : Nat} {v w : Nat}
    (hij : i ≠ j) (hi : l[i]? = some v) (hj : l[j]? = some w) :
    v + w ≤ l.sum := by
  induction l generalizing i j with
  | nil => simp at hi
  | cons a tl ih =>
    cases i with
    | zero =>
      have hx : a = v := by simpa using hi
      cases j with
      | zero => exact absurd rfl hij
      | succ m =>
        simp only [List.getElem?_cons_succ] at hj
        have := sum_ge_of_getElem? hj
        simp only [List.sum_cons, ← hx]
        omega
    | succ n =>
      simp only [List.getElem?_cons_succ] at hi
      cases j with
      | zero =>
        have hx : a = w := by simpa using hj
        have := sum_ge_of_getElem? hi
        simp only [List.sum_cons, ← hx]
        omega
      | succ m =>
        simp only [List.getElem?_cons_succ] at hj
        have hnm : n ≠ m := fun hc => hij (congrArg Nat.succ hc)
        have := ih hnm hi hj
        simp only [List.sum_cons]
        omega

theorem count_ge_two_of_getElem? {α : Type} [DecidableEq α] {l : List α} {i j : Nat} {t : α}
    (hij : i ≠ j) (hi : l[i]? = some t) (hj : l[j]? = some t) :
    2 ≤ l.count t := by
  induction l generalizing i j with
  | nil => simp at hi
  | cons a tl ih =>
    cases i with
    | zero =>
      have hx : a = t := by simpa using hi
      cases j with
      | zero => exact absurd rfl hij
      | succ m =>
        simp only [List.getElem?_cons_succ] at hj
        have hmem : t ∈ tl := List.mem_iff_getElem?.mpr ⟨m, hj⟩
        have hcnt : 0 < tl.count t := List.count_pos_iff.mpr hmem
        subst hx
        rw [List.count_cons_self]
        omega
    | succ n =>
      simp only [List.getElem?_cons_succ] at hi
      cases j with
      | zero =>
        have hx : a = t := by simpa using hj
        have hmem : t ∈ tl := List.mem_iff_getElem?.mpr ⟨n, hi⟩
        have hcnt : 0 < tl.count t := List.count_pos_iff.mpr hmem
        subst hx
        rw [List.count_cons_self]
        omega
      | succ m =>
        simp only [List.getElem?_cons_succ] at hj
        have hnm : n ≠ m := fun hc => hij (congrArg Nat.succ hc)
        have := ih hnm hi hj
        exact le_trans this (List.count_le_count_cons ..)


theorem countType_setCellD_add {g : GridM} {row col : Int} {a : CellType} (b t : CellType)
    (h : getCell? g row col = some a) :
    countType (setCellD g row col b) t + (if a = t then 1 else 0) =
      countType g t + (if b = t then 1 else 0) := by
  cases hr : listGet? g row with
  | none => simp [getCell?, hr] at h
  | some r =>
    simp only [getCell?, hr] at h
    have hrneg : ¬ row < 0 := by
      intro hc; simp [listGet?, hc] at hr
    have hcneg : ¬ col < 0 := by
      intro hc; simp [listGet?, hc] at h
    have hrN : g[row.toNat]? = some r := by
      simpa [listGet?, hrneg, List.get?_eq_getElem?] using hr
    have hN : r[col.toNat]? = some a := by
      simpa [listGet?, hcneg, List.get?_eq_getElem?] using h
    have hset : setCellD g row col b = listSet g row (listSet r col b) := by
      simp only [setCellD, hr]
    rw [hset]
    simp only [listSet, if_neg hrneg, if_neg hcneg, countType, List.map_set]
    have hgm : (g.map (fun r => r.count t))[row.toNat]? = some (r.count t) := by
      rw [List.getElem?_map, hrN]
      rfl
    have hsum := sum_set_add (y := (r.set col.toNat b).count t) hgm
    have hcnt := count_set_add b t hN
    omega

theorem countType_lower_two {g : GridM} {p q : Pos} {t : CellType}
    (hp : getCell? g p.1 p.2 = some t) (hq : getCell? g q.1 q.2 = some t) (hne : p ≠ q) :
    2 ≤ countType g t := by
  cases hr1 : listGet? g p.1 with
  | none => simp [getCell?, hr1] at hp
  | some r1 =>
  cases hr2 : listGet? g q.1 with
  | none => simp [getCell?, hr2] at hq
  | some r2 =>
  simp only [getCell?, hr1] at hp
  simp only [getCell?, hr2] at hq
  have h1neg : ¬ p.1 < 0 := by intro hc; simp [listGet?, hc] at hr1
  have h2neg : ¬ q.1 < 0 := by intro hc; simp [listGet?, hc] at hr2
  have hc1neg : ¬ p.2 < 0 := by intro hc; simp [listGet?, hc] at hp
  have hc2neg : ¬ q.2 < 0 := by intro hc; simp [listGet?, hc] at hq
  have hr1N : g[p.1.toNat]? = some r1 := by
    simpa [listGet?, h1neg, List.get?_eq_getElem?] using hr1
  have hr2N : g[q.1.toNat]? = some r2 := by
    simpa [listGet?, h2neg, List.get?_eq_getElem?] using hr2
  have hpN : r1[p.2.toNat]? = some t := by
    simpa [listGet?, hc1neg, List.get?_eq_getElem?] using hp
  have hqN : r2[q.2.toNat]? = some t := by
    simpa [listGet?, hc2neg, List.get?_eq_getElem?] using hq
  have hg1 : (g.map (fun r => r.count t))[p.1.toNat]? = some (r1.count t) := by
    rw [List.getElem?_map, hr1N]
    rfl
  have hg2 : (g.map (fun r => r.count t))[q.1.toNat]? = some (r2.count t) := by
    rw [List.getElem?_map, hr2N]
    rfl
  by_cases hrow : p.1 = q.1
  · have htn : p.1.toNat = q.1.toNat := by rw [hrow]
    have hrr : r1 = r2 := by
      rw [htn, hr2N] at hr1N
      exact (Option.some.injEq .. ▸ hr1N).symm
    have hcol : p.2.toNat ≠ q.2.toNat := by
      intro hc
      exact hne (Prod.ext hrow (by omega))
    have h2c : 2 ≤ r1.count t :=
      count_ge_two_of_getElem? hcol hpN (by rw [hrr]; exact hqN)
    exact le_trans h2c (sum_ge_of_getElem? hg1)
  · have htn : p.1.toNat ≠ q.1.toNat := by omega
    have hm1 : 0 < r1.count t :=
      List.count_pos_iff.mpr (List.mem_iff_getElem?.mpr ⟨p.2.toNat, hpN⟩)
    have hm2 : 0 < r2.count t :=
      List.count_pos_iff.mpr (List.mem_iff_getElem?.mpr ⟨q.2.toNat, hqN⟩)
    have := sum_ge_two_of_getElem? htn hg1 hg2
    have hct : countType g t = (g.map (fun r => r.count t)).sum := rfl
    omega


/-- The component-level marker invariant: the recorded start and end
coordinates exist, differ, point at cells holding the `start` and `end`
markers, and each marker occurs exactly once in the matrix. -/
def okChk (s : ComponentState) : Bool :=
  match s.startCell, s.endCell with
  | some p, some q =>
    decide (p ≠ q) && decide (getCell? s.grid p.1 p.2 = some CellType.start) &&
      decide (getCell? s.grid q.1 q.2 = some CellType.«end») &&
      decide (countType s.grid CellType.start = 1) &&
      decide (countType s.grid CellType.«end» = 1)
  | _, _ => false

theorem paint_unique_start_end_aux
    (s : ComponentState) (row col : Int) (s' : ComponentState)
    (hok : okChk s = true)
    (hrs : s.drawMode = DrawMode.start → ∀ q, s.endCell = some q → (row, col) ≠ q)
    (hre : s.drawMode = DrawMode.«end» → ∀ p, s.startCell = some p → (row, col) ≠ p)
    (hclick : handleCellClick s row col = some s') :
    okChk s' = true := by
  by_cases hrun : s.isRunning = true
  · simp only [handleCellClick, hrun, if_true, Option.some.injEq] at hclick
    rw [← hclick]
    exact hok
  · simp only [Bool.not_eq_true] at hrun
    cases hsc : s.startCell with
    | none => simp [okChk, hsc] at hok
    | some p =>
    cases hec : s.endCell with
    | none => simp [okChk, hsc, hec] at hok
    | some q =>
    obtain ⟨p1, p2⟩ := p
    obtain ⟨q1, q2⟩ := q
    simp only [okChk, hsc, hec, Bool.and_eq_true, decide_eq_true_eq] at hok
    obtain ⟨⟨⟨⟨hpq, hgp⟩, hgq⟩, hcs⟩, hce⟩ := hok
    cases hcell : getCell? s.grid row col with
    | none => simp [handleCellClick, hrun, hcell] at hclick
    | some t =>
      cases hdm : s.drawMode with
      | start =>
        have hneq : (row, col) ≠ (q1, q2) := hrs hdm (q1, q2) hec
        obtain ⟨x, hx⟩ := getCell?_setCellD_isSome p1 p2 CellType.empty hcell
        simp only [handleCellClick, hrun, Bool.false_eq_true, if_false, hcell, hdm, hsc,
          setCell?, hgp, hx, Option.some_bind, Option.map_some', Option.some.injEq] at hclick
        have hA := countType_setCellD_add CellType.empty CellType.start hgp
        have hB := countType_setCellD_add CellType.empty CellType.«end» hgp
        simp only [if_pos rfl, if_neg (by simp : ¬ CellType.empty = CellType.start),
          if_neg (by simp : ¬ CellType.start = CellType.«end»),
          if_neg (by simp : ¬ CellType.empty = CellType.«end»), if_true] at hA hB
        have hxs : x ≠ CellType.start ∧ x ≠ CellType.«end» := by
          by_cases hxp : (row, col) = ((p1 : Int), (p2 : Int))
          · have : getCell? (setCellD s.grid p1 p2 CellType.empty) row col =
                some CellType.empty := by
              rw [show row = p1 from congrArg Prod.fst hxp,
                show col = p2 from congrArg Prod.snd hxp]
              exact getCell?_setCellD_self CellType.empty hgp
            rw [this] at hx
            cases hx
            exact ⟨by simp, by simp⟩
          · have hsame : getCell? (setCellD s.grid p1 p2 CellType.empty) row col =
                getCell? s.grid row col := getCell?_setCellD_ne CellType.empty hxp
            rw [hsame, hcell] at hx
            cases hx
            constructor
            · intro hts
              have h2 := countType_lower_two (p := ((row : Int), (col : Int)))
                (q := ((p1 : Int), (p2 : Int))) (hts ▸ hcell) hgp hxp
              omega
            · intro hte
              have h2 := countType_lower_two (p := ((row : Int), (col : Int)))
                (q := ((q1 : Int), (q2 : Int))) (hte ▸ hcell) hgq hneq
              omega
        have hC := countType_setCellD_add CellType.start CellType.start hx
        have hD := countType_setCellD_add CellType.start CellType.«end» hx
        simp only [if_pos rfl, if_neg hxs.1, if_neg hxs.2,
          if_neg (by simp : ¬ CellType.start = CellType.«end»), if_true] at hC hD
        rw [← hclick]
        simp only [okChk, hec, Bool.and_eq_true, decide_eq_true_eq]
        refine ⟨⟨⟨⟨fun hc => hneq hc, getCell?_setCellD_self CellType.start hx⟩, ?_⟩, ?_⟩, ?_⟩
        · have h1 : getCell? (setCellD (setCellD s.grid p1 p2 CellType.empty) row col
              CellType.start) q1 q2 =
              getCell? (setCellD s.grid p1 p2 CellType.empty) q1 q2 :=
            getCell?_setCellD_ne CellType.start (fun hc => hneq hc.symm)
          have h2 : getCell? (setCellD s.grid p1 p2 CellType.empty) q1 q2 =
              getCell? s.grid q1 q2 :=
            getCell?_setCellD_ne CellType.empty (fun hc => hpq hc.symm)
          rw [h1, h2]
          exact hgq
        · omega
        · omega
      | «end» =>
        have hneq : (row, col) ≠ (p1, p2) := hre hdm (p1, p2) hsc
        obtain ⟨x, hx⟩ := getCell?_setCellD_isSome q1 q2 CellType.empty hcell
        simp only [handleCellClick, hrun, Bool.false_eq_true, if_false, hcell, hdm, hec,
          setCell?, hgq, hx, Option.some_bind, Option.map_some', Option.some.injEq] at hclick
        have hA := countType_setCellD_add CellType.empty CellType.«end» hgq
        have hB := countType_setCellD_add CellType.empty CellType.start hgq
        simp only [if_pos rfl, if_neg (by simp : ¬ CellType.empty = CellType.«end»),
          if_neg (by simp : ¬ CellType.«end» = CellType.start),
          if_neg (by simp : ¬ CellType.empty = CellType.start), if_true] at hA hB
        have hxs : x ≠ CellType.«end» ∧ x ≠ CellType.start := by
          by_cases hxp : (row, col) = ((q1 : Int), (q2 : Int))
          · have : getCell? (setCellD s.grid q1 q2 CellType.empty) row col =
                some CellType.empty := by
              rw [show row = q1 from congrArg Prod.fst hxp,
                show col = q2 from congrArg Prod.snd hxp]
              exact getCell?_setCellD_self CellType.empty hgq
            rw [this] at hx
            cases hx
            exact ⟨by simp, by simp⟩
          · have hsame : getCell? (setCellD s.grid q1 q2 CellType.empty) row col =
                getCell? s.grid row col := getCell?_setCellD_ne CellType.empty hxp
            rw [hsame, hcell] at hx
            cases hx
            constructor
            · intro hte
              have h2 := countType_lower_two (p := ((row : Int), (col : Int)))
                (q := ((q1 : Int), (q2 : Int))) (hte ▸ hcell) hgq hxp
              omega
            · intro hts
              have h2 := countType_lower_two (p := ((row : Int), (col : Int)))
                (q := ((p1 : Int), (p2 : Int))) (hts ▸ hcell) hgp hneq
              omega
        have hC := countType_setCellD_add CellType.«end» CellType.«end» hx
        have hD := countType_setCellD_add CellType.«end» CellType.start hx
        simp only [if_pos rfl, if_neg hxs.1, if_neg hxs.2,
          if_neg (by simp : ¬ CellType.«end» = CellType.start), if_true] at hC hD
        rw [← hclick]
        simp only [okChk, hsc, Bool.and_eq_true, decide_eq_true_eq]
        refine ⟨⟨⟨⟨fun hc => hneq hc.symm, ?_⟩, getCell?_setCellD_self CellType.«end» hx⟩, ?_⟩, ?_⟩
        · have h1 : getCell? (setCellD (setCellD s.grid q1 q2 CellType.empty) row col
              CellType.«end») p1 p2 =
              getCell? (setCellD s.grid q1 q2 CellType.empty) p1 p2 :=
            getCell?_setCellD_ne CellType.«end» (fun hc => hneq hc.symm)
          have h2 : getCell? (setCellD s.grid q1 q2 CellType.empty) p1 p2 =
              getCell? s.grid p1 p2 :=
            getCell?_setCellD_ne CellType.empty (fun hc => hpq hc)
          rw [h1, h2]
          exact hgp
        · omega
        · omega
      | wall =>
        cases t with
        | empty =>
          simp only [handleCellClick, hrun, Bool.false_eq_true, if_false, hcell, hdm,
            setCell?, Option.map_some', Option.some.injEq, if_pos rfl,
            if_true, if_false, eq_self_iff_true, reduceCtorEq] at hclick
          have hws : ((row : Int), (col : Int)) ≠ ((p1 : Int), (p2 : Int)) := by
            intro hc
            rw [show row = p1 from congrArg Prod.fst hc,
              show col = p2 from congrArg Prod.snd hc, hgp] at hcell
            simp at hcell
          have hwe : ((row : Int), (col : Int)) ≠ ((q1 : Int), (q2 : Int)) := by
            intro hc
            rw [show row = q1 from congrArg Prod.fst hc,
              show col = q2 from congrArg Prod.snd hc, hgq] at hcell
            simp at hcell
          have hA := countType_setCellD_add CellType.wall CellType.start hcell
          have hB := countType_setCellD_add CellType.wall CellType.«end» hcell
          simp only [if_neg (by simp : ¬ CellType.empty = CellType.start),
            if_neg (by simp : ¬ CellType.wall = CellType.start),
            if_neg (by simp : ¬ CellType.empty = CellType.«end»),
            if_neg (by simp : ¬ CellType.wall = CellType.«end»)] at hA hB
          rw [← hclick]
          simp only [okChk, hsc, hec, Bool.and_eq_true, decide_eq_true_eq]
          refine ⟨⟨⟨⟨hpq, ?_⟩, ?_⟩, by omega⟩, by omega⟩
          · rw [getCell?_setCellD_ne CellType.wall (fun hc => hws hc.symm)]
            exact hgp
          · rw [getCell?_setCellD_ne CellType.wall (fun hc => hwe hc.symm)]
            exact hgq
        | wall =>
          simp only [handleCellClick, hrun, Bool.false_eq_true, if_false, hcell, hdm,
            setCell?, Option.map_some', Option.some.injEq,
            if_neg (by simp : ¬ CellType.wall = CellType.empty), if_pos rfl,
            if_true, if_false, eq_self_iff_true, reduceCtorEq] at hclick
          have hws : ((row : Int), (col : Int)) ≠ ((p1 : Int), (p2 : Int)) := by
            intro hc
            rw [show row = p1 from congrArg Prod.fst hc,
              show col = p2 from congrArg Prod.snd hc, hgp] at hcell
            simp at hcell
          have hwe : ((row : Int), (col : Int)) ≠ ((q1 : Int), (q2 : Int)) := by
            intro hc
            rw [show row = q1 from congrArg Prod.fst hc,
              show col = q2 from congrArg Prod.snd hc, hgq] at hcell
            simp at hcell
          have hA := countType_setCellD_add CellType.empty CellType.start hcell
          have hB := countType_setCellD_add CellType.empty CellType.«end» hcell
          simp only [if_neg (by simp : ¬ CellType.empty = CellType.start),
            if_neg (by simp : ¬ CellType.wall = CellType.start),
            if_neg (by simp : ¬ CellType.empty = CellType.«end»),
            if_neg (by simp : ¬ CellType.wall = CellType.«end»)] at hA hB
          rw [← hclick]
          simp only [okChk, hsc, hec, Bool.and_eq_true, decide_eq_true_eq]
          refine ⟨⟨⟨⟨hpq, ?_⟩, ?_⟩, by omega⟩, by omega⟩
          · rw [getCell?_setCellD_ne CellType.empty (fun hc => hws hc.symm)]
            exact hgp
          · rw [getCell?_setCellD_ne CellType.empty (fun hc => hwe hc.symm)]
            exact hgq
        | start =>
          simp only [handleCellClick, hrun, Bool.false_eq_true, if_false, hcell, hdm,
            setCell?, Option.some.injEq,
            if_neg (by simp : ¬ CellType.start = CellType.empty),
            if_neg (by simp : ¬ CellType.start = CellType.wall),
            if_true, if_false, eq_self_iff_true, reduceCtorEq] at hclick
          rw [← hclick]
          simp only [okChk, hsc, hec, Bool.and_eq_true, decide_eq_true_eq]
          exact ⟨⟨⟨⟨hpq, hgp⟩, hgq⟩, hcs⟩, hce⟩
        | «end» =>
          simp only [handleCellClick, hrun, Bool.false_eq_true, if_false, hcell, hdm,
            setCell?, Option.some.injEq,
            if_neg (by simp : ¬ CellType.«end» = CellType.empty),
            if_neg (by simp : ¬ CellType.«end» = CellType.wall),
            if_true, if_false, eq_self_iff_true, reduceCtorEq] at hclick
          rw [← hclick]
          simp only [okChk, hsc, hec, Bool.and_eq_true, decide_eq_true_eq]
          exact ⟨⟨⟨⟨hpq, hgp⟩, hgq⟩, hcs⟩, hce⟩
        | path =>
          simp only [handleCellClick, hrun, Bool.false_eq_true, if_false, hcell, hdm,
            setCell?, Option.some.injEq,
            if_neg (by simp : ¬ CellType.path = CellType.empty),
            if_neg (by simp : ¬ CellType.path = CellType.wall),
            if_true, if_false, eq_self_iff_true, reduceCtorEq] at hclick
          rw [← hclick]
          simp only [okChk, hsc, hec, Bool.and_eq_true, decide_eq_true_eq]
          exact ⟨⟨⟨⟨hpq, hgp⟩, hgq⟩, hcs⟩, hce⟩
        | visited =>
          simp only [handleCellClick, hrun, Bool.false_eq_true, if_false, hcell, hdm,
            setCell?, Option.some.injEq,
            if_neg (by simp : ¬ CellType.visited = CellType.empty),
            if_neg (by simp : ¬ CellType.visited = CellType.wall),
            if_true, if_false, eq_self_iff_true, reduceCtorEq] at hclick
          rw [← hclick]
          simp only [okChk, hsc, hec, Bool.and_eq_true, decide_eq_true_eq]
          exact ⟨⟨⟨⟨hpq, hgp⟩, hgq⟩, hcs⟩, hce⟩
        | current =>
          simp only [handleCellClick, hrun, Bool.false_eq_true, if_false, hcell, hdm,
            setCell?, Option.some.injEq,
            if_neg (by simp : ¬ CellType.current = CellType.empty),
            if_neg (by simp : ¬ CellType.current = CellType.wall),
            if_true, if_false, eq_self_iff_true, reduceCtorEq] at hclick
          rw [← hclick]
          simp only [okChk, hsc, hec, Bool.and_eq_true, decide_eq_true_eq]
          exact ⟨⟨⟨⟨hpq, hgp⟩, hgq⟩, hcs⟩, hce⟩

/-- C4 (amended): the freshly initialized grid has exactly one start and
one end marker, and painting preserves this invariant provided a
start-mode paint never targets the recorded end cell and an end-mode
paint never targets the recorded start cell. -/
theorem paint_unique_start_end :
    okChk initialState = true ∧
    ∀ (s : ComponentState) (row col : Int) (s' : ComponentState),
      okChk s = true →
      (s.drawMode = DrawMode.start → ∀ q, s.endCell = some q → (row, col) ≠ q) →
      (s.drawMode = DrawMode.«end» → ∀ p, s.startCell = some p → (row, col) ≠ p) →
      handleCellClick s row col = some s' → okChk s' = true :=
  ⟨by decide, paint_unique_start_end_aux⟩

/-- C4 counterexample: painting in start mode onto the recorded end cell
(12, 40) of the freshly initialized grid reverts the prior start holder
and overwrites the end marker, leaving no cell of kind `end` at all. -/
theorem paint_unique_start_end_cex :
    countType (((handleCellClick { initialState with drawMode := DrawMode.start } 12 40).getD
        initialState).grid) CellType.«end» = 0 ∧
    okChk ((handleCellClick { initialState with drawMode := DrawMode.start } 12 40).getD
        initialState) = false := by decide

/-- Concrete instance of `paint_unique_start_end`: painting a wall at
(0,0) of the initialized grid keeps exactly one start and one end. -/
theorem paint_unique_start_end_witness :
    okChk ((handleCellClick initialState 0 0).getD initialState) = true := by
  have hsome : handleCellClick initialState 0 0 =
      some ((handleCellClick initialState 0 0).getD initialState) := by decide
  exact paint_unique_start_end.2 initialState 0 0 _ paint_unique_start_end.1
    (fun h => absurd h (by decide)) (fun h => absurd h (by decide)) hsome

end PathFinder


namespace PathFinder

/-! ## Search-engine lemmas and claim C10 -/

theorem distLe_refl (a : Option Nat) : distLe a a = true := by
  cases a <;> simp [distLe]

theorem distLe_trans (a b c : Option Nat) (hab : distLe a b = true) (hbc : distLe b c = true) :
    distLe a c = true := by
  cases a <;> cases b <;> cases c <;> simp_all [distLe] <;> omega

theorem distLe_total (a b : Option Nat) : (distLe a b || distLe b a) = true := by
  cases a <;> cases b <;> simp [distLe] <;> omega

theorem mergeSort_head_le {α : Type} (le : α → α → Bool)
    (htrans : ∀ a b c, le a b = true → le b c = true → le a c = true)
    (htot : ∀ a b, (le a b || le b a) = true)
    {l : List α} {u : α} {rest : List α}
    (h : l.mergeSort le = u :: rest) :
    ∀ v ∈ l, le u v = true := by
  intro v hv
  have hperm := List.mergeSort_perm l le
  have hsorted := List.sorted_mergeSort htrans htot l
  rw [h] at hperm hsorted
  have hv' : v ∈ u :: rest := hperm.mem_iff.mpr hv
  rcases List.mem_cons.mp hv' with rfl | hv''
  · have := htot v v
    simpa using this
  · exact List.rel_of_pairwise_cons hsorted hv''

theorem mem_initialPool {g : GridM} {rows cols : Nat} {p : Pos} :
    p ∈ initialPool g rows cols ↔ inBounds rows cols p ∧ isWallAt g p = false := by
  obtain ⟨p1, p2⟩ := p
  simp only [initialPool, List.mem_flatMap, List.mem_filterMap, List.mem_range, inBounds]
  constructor
  · rintro ⟨r, hr, c, hc, hif⟩
    split at hif
    · exact absurd hif (by simp)
    · rename_i hw
      have hpair : (((r : Nat) : Int), ((c : Nat) : Int)) = ((p1 : Int), (p2 : Int)) := by
        simpa using hif
      have e1 : ((r : Nat) : Int) = p1 := congrArg Prod.fst hpair
      have e2 : ((c : Nat) : Int) = p2 := congrArg Prod.snd hpair
      subst e1
      subst e2
      exact ⟨⟨by omega, by omega, by omega, by omega⟩, by simpa using hw⟩
  · rintro ⟨⟨hb1, hb2, hb3, hb4⟩, hw⟩
    refine ⟨p1.toNat, by omega, p2.toNat, by omega, ?_⟩
    have hpp : (((p1.toNat : Nat) : Int), ((p2.toNat : Nat) : Int)) = ((p1 : Int), (p2 : Int)) := by
      have e1 : ((p1.toNat : Nat) : Int) = p1 := by omega
      have e2 : ((p2.toNat : Nat) : Int) = p2 := by omega
      rw [e1, e2]
    simp only [hpp]
    rw [if_neg (by simp [hw])]

theorem nodup_initialPool {g : GridM} {rows cols : Nat} : (initialPool g rows cols).Nodup := by
  apply List.nodup_flatMap.mpr
  constructor
  · intro r hr
    refine (List.nodup_range cols).filterMap ?_
    intro c c' b hb hb'
    split at hb
    · exact absurd hb (by simp)
    · split at hb'
      · exact absurd hb' (by simp)
      · have h1 : ((c : Nat) : Int) = b.2 := by
          cases hb
          rfl
        have h2 : ((c' : Nat) : Int) = b.2 := by
          cases hb'
          rfl
        omega
  · have hpl : List.Pairwise (· < ·) (List.range rows) := List.pairwise_lt_range rows
    refine hpl.imp ?_
    intro r r' hrr
    intro x hx hx'
    simp only [List.mem_filterMap, List.mem_range] at hx hx'
    obtain ⟨c, hc, hif⟩ := hx
    obtain ⟨c', hc', hif'⟩ := hx'
    split at hif
    · exact absurd hif (by simp)
    · split at hif'
      · exact absurd hif' (by simp)
      · have h1 : ((r : Nat) : Int) = x.1 := by
          cases hif
          rfl
        have h2 : ((r' : Nat) : Int) = x.1 := by
          cases hif'
          rfl
        omega

theorem relaxCell_fields (wall : Pos → Bool) (u : Pos) (du : Nat) (st : RunState) (w : Pos) :
    (relaxCell wall u du st w).pool = st.pool ∧
    (relaxCell wall u du st w).visitedFlag = st.visitedFlag ∧
    (relaxCell wall u du st w).counter = st.counter ∧
    (relaxCell wall u du st w).trace = st.trace := by
  unfold relaxCell
  split
  · exact ⟨rfl, rfl, rfl, rfl⟩
  · split
    · exact ⟨rfl, rfl, rfl, rfl⟩
    · exact ⟨rfl, rfl, rfl, rfl⟩

theorem relaxCell_dist_prev (wall : Pos → Bool) (u : Pos) (du : Nat) (st : RunState) (w p : Pos) :
    ((relaxCell wall u du st w).dist p = st.dist p ∧
      (relaxCell wall u du st w).prev p = st.prev p) ∨
    (p = w ∧ st.visitedFlag w = false ∧ wall w = false ∧
      distLtN (du + 1) (st.dist w) = true ∧
      (relaxCell wall u du st w).dist p = some (du + 1) ∧
      (relaxCell wall u du st w).prev p = some u) := by
  unfold relaxCell
  split
  · exact Or.inl ⟨rfl, rfl⟩
  · rename_i hskip
    split
    · rename_i hlt
      by_cases hpw : p = w
      · subst hpw
        refine Or.inr ⟨rfl, ?_, ?_, hlt, by simp, by simp⟩
        · cases hvw : st.visitedFlag p
          · rfl
          · exact absurd (by rw [hvw]; simp) hskip
        · cases hww : wall p
          · rfl
          · exact absurd (by rw [hww]; simp) hskip
      · exact Or.inl ⟨by simp [hpw], by simp [hpw]⟩
    · exact Or.inl ⟨rfl, rfl⟩


theorem relaxAll_fields (wall : Pos → Bool) (u : Pos) (du : Nat) (nbrs : List Pos)
    (st : RunState) :
    (relaxAll wall u du nbrs st).pool = st.pool ∧
    (relaxAll wall u du nbrs st).visitedFlag = st.visitedFlag ∧
    (relaxAll wall u du nbrs st).counter = st.counter ∧
    (relaxAll wall u du nbrs st).trace = st.trace := by
  induction nbrs generalizing st with
  | nil => exact ⟨rfl, rfl, rfl, rfl⟩
  | cons w tl ih =>
    have h1 := relaxCell_fields wall u du st w
    have h2 := ih (relaxCell wall u du st w)
    simp only [relaxAll, List.foldl_cons] at h2 ⊢
    exact ⟨h2.1.trans h1.1, h2.2.1.trans h1.2.1, h2.2.2.1.trans h1.2.2.1,
      h2.2.2.2.trans h1.2.2.2⟩

theorem relaxAll_dist_prev (wall : Pos → Bool) (u : Pos) (du : Nat) (nbrs : List Pos)
    (st : RunState) (p : Pos) :
    ((relaxAll wall u du nbrs st).dist p = st.dist p ∧
      (relaxAll wall u du nbrs st).prev p = st.prev p) ∨
    (st.visitedFlag p = false ∧ wall p = false ∧ p ∈ nbrs ∧
      (relaxAll wall u du nbrs st).dist p = some (du + 1) ∧
      (relaxAll wall u du nbrs st).prev p = some u ∧
      distLtN (du + 1) (st.dist p) = true) := by
  induction nbrs generalizing st with
  | nil => exact Or.inl ⟨rfl, rfl⟩
  | cons w tl ih =>
    have hvfields := relaxCell_fields wall u du st w
    have hcell := relaxCell_dist_prev wall u du st w p
    have hrec := ih (relaxCell wall u du st w)
    simp only [relaxAll, List.foldl_cons] at hrec ⊢
    rcases hrec with ⟨hd, hp⟩ | ⟨hv, hw, hmem, hd, hp, hlt⟩
    · rcases hcell with ⟨hd0, hp0⟩ | ⟨hpw, hv0, hw0, hlt0, hd0, hp0⟩
      · exact Or.inl ⟨hd.trans hd0, hp.trans hp0⟩
      · subst hpw
        exact Or.inr ⟨hv0, hw0, List.mem_cons_self .., hd.trans hd0, hp.trans hp0, hlt0⟩
    · rw [hvfields.2.1] at hv
      rcases hcell with ⟨hd0, hp0⟩ | ⟨hpw, hv0, hw0, hlt0, hd0, hp0⟩
      · rw [hd0] at hlt
        exact Or.inr ⟨hv, hw, List.mem_cons_of_mem w hmem, hd, hp, hlt⟩
      · subst hpw
        rw [hd0] at hlt
        simp only [distLtN, decide_eq_true_eq] at hlt
        omega

structure ChainInv (N : Nat) (s : Pos) (st : RunState) : Prop where
  start_dist : st.dist s = some 0
  start_prev : st.prev s = none
  prev_ok : ∀ v u, st.prev v = some u →
    ∃ du, st.dist u = some du ∧ st.dist v = some (du + 1) ∧ st.visitedFlag u = true
  finite_prev : ∀ v, v ≠ s → ∀ d, st.dist v = some d → ∃ u, st.prev v = some u
  zero_unique : ∀ v, st.dist v = some 0 → v = s
  dist_bound : ∀ v d, st.dist v = some d → d ≤ st.counter
  count_bound : st.counter + st.pool.length ≤ N


/-- The state after shifting the minimum node `u`, marking it visited and
recording it in the trace. -/
def finalizeState (st : RunState) (u : Pos) (du : Nat) (rest : List Pos) : RunState :=
  { st with
    visitedFlag := fun p => if p = u then true else st.visitedFlag p
    pool := rest
    counter := st.counter + 1
    trace := st.trace ++ [(u, du)] }

theorem chainInv_finalize {N : Nat} {s : Pos} {st : RunState} {u : Pos} {du : Nat}
    {rest : List Pos} (hinv : ChainInv N s st) (hdu : st.dist u = some du)
    (hlen : st.pool.length = rest.length + 1) :
    ChainInv N s (finalizeState st u du rest) := by
  refine ⟨hinv.start_dist, hinv.start_prev, ?_, hinv.finite_prev, hinv.zero_unique, ?_, ?_⟩
  · intro v w hvw
    obtain ⟨dw, h1, h2, h3⟩ := hinv.prev_ok v w hvw
    refine ⟨dw, h1, h2, ?_⟩
    simp only [finalizeState]
    by_cases hwu : w = u <;> simp [hwu, h3]
  · intro v d hd
    have := hinv.dist_bound v d hd
    simp only [finalizeState]
    omega
  · have := hinv.count_bound
    simp only [finalizeState]
    omega

theorem chainInv_step {N : Nat} {s : Pos} {wall : Pos → Bool} {nbrsU : List Pos}
    {st : RunState} {u : Pos} {du : Nat} {rest : List Pos}
    (hinv : ChainInv N s st) (hdu : st.dist u = some du)
    (hlen : st.pool.length = rest.length + 1) :
    ChainInv N s (relaxAll wall u du nbrsU (finalizeState st u du rest)) := by
  have hfin := chainInv_finalize hinv hdu hlen
  set st1 := finalizeState st u du rest with hst1
  have hfields := relaxAll_fields wall u du nbrsU st1
  have hust1 : st1.visitedFlag u = true := by
    simp [hst1, finalizeState]
  have hdust1 : st1.dist u = some du := hdu
  have hdist2_u : (relaxAll wall u du nbrsU st1).dist u = some du := by
    rcases relaxAll_dist_prev wall u du nbrsU st1 u with ⟨hd, _⟩ | ⟨hv, _, _, _, _, _⟩
    · rw [hd]
      exact hdust1
    · rw [hust1] at hv
      cases hv
  refine ⟨?_, ?_, ?_, ?_, ?_, ?_, ?_⟩
  · rcases relaxAll_dist_prev wall u du nbrsU st1 s with ⟨hd, _⟩ | ⟨_, _, _, _, _, hlt⟩
    · rw [hd]
      exact hfin.start_dist
    · rw [hfin.start_dist] at hlt
      simp [distLtN] at hlt
  · rcases relaxAll_dist_prev wall u du nbrsU st1 s with ⟨_, hp⟩ | ⟨_, _, _, _, _, hlt⟩
    · rw [hp]
      exact hfin.start_prev
    · rw [hfin.start_dist] at hlt
      simp [distLtN] at hlt
  · intro v w hvw
    rcases relaxAll_dist_prev wall u du nbrsU st1 v with ⟨hd, hp⟩ | ⟨_, _, _, hd, hp, _⟩
    · rw [hp] at hvw
      obtain ⟨dw, h1, h2, h3⟩ := hfin.prev_ok v w hvw
      refine ⟨dw, ?_, by rw [hd]; exact h2, by rw [hfields.2.1]; exact h3⟩
      rcases relaxAll_dist_prev wall u du nbrsU st1 w with ⟨hdw, _⟩ | ⟨hvw', _, _, _, _, _⟩
      · rw [hdw]
        exact h1
      · rw [h3] at hvw'
        cases hvw'
    · rw [hp] at hvw
      cases hvw
      refine ⟨du, hdist2_u, by rw [hd], by rw [hfields.2.1]; exact hust1⟩
  · intro v hvs d hd
    rcases relaxAll_dist_prev wall u du nbrsU st1 v with ⟨hdv, hpv⟩ | ⟨_, _, _, _, hp, _⟩
    · rw [hdv] at hd
      obtain ⟨w, hw⟩ := hfin.finite_prev v hvs d hd
      exact ⟨w, by rw [hpv]; exact hw⟩
    · exact ⟨u, hp⟩
  · intro v hd
    rcases relaxAll_dist_prev wall u du nbrsU st1 v with ⟨hdv, _⟩ | ⟨_, _, _, hdv, _, _⟩
    · rw [hdv] at hd
      exact hfin.zero_unique v hd
    · rw [hdv] at hd
      cases hd
  · intro v d hd
    rw [hfields.2.2.1]
    rcases relaxAll_dist_prev wall u du nbrsU st1 v with ⟨hdv, _⟩ | ⟨_, _, _, hdv, _, _⟩
    · rw [hdv] at hd
      exact hfin.dist_bound v d hd
    · rw [hdv] at hd
      cases hd
      have hdub := hinv.dist_bound u du hdu
      simp only [st1, finalizeState]
      omega
  · rw [hfields.1, hfields.2.2.1]
    exact hfin.count_bound

theorem reconstruct_head_length {N : Nat} {s : Pos} {st : RunState}
    (hinv : ChainInv N s st) :
    ∀ (fuel : Nat) (e : Pos) (de : Nat), st.dist e = some de → de ≤ fuel →
      (reconstruct st.prev fuel e).head? = some s ∧
      (reconstruct st.prev fuel e).length = de + 1 := by
  intro fuel
  induction fuel with
  | zero =>
    intro e de hde hle
    have hde0 : de = 0 := by omega
    subst hde0
    have hes : e = s := hinv.zero_unique e hde
    subst hes
    exact ⟨rfl, rfl⟩
  | succ n ih =>
    intro e de hde hle
    cases hp : st.prev e with
    | none =>
      have hes : e = s := by
        by_contra hne
        obtain ⟨w, hw⟩ := hinv.finite_prev e hne de hde
        rw [hp] at hw
        cases hw
      subst hes
      have hde0 : de = 0 := by
        have := hinv.start_dist
        rw [this] at hde
        cases hde
        rfl
      subst hde0
      simp [reconstruct, hp]
    | some q =>
      obtain ⟨dq, h1, h2, _⟩ := hinv.prev_ok e q hp
      rw [hde] at h2
      cases h2
      have hqle : dq ≤ n := by omega
      obtain ⟨hh, hl⟩ := ih q dq h1 hqle
      have hne : reconstruct st.prev n q ≠ [] := by
        intro hc
        rw [hc] at hl
        simp at hl
      constructor
      · simp only [reconstruct, hp, List.head?_append]
        rw [hh]
        rfl
      · simp only [reconstruct, hp, List.length_append, hl, List.length_singleton]


theorem initialPool_length_le (g : GridM) (rows cols : Nat) :
    (initialPool g rows cols).length ≤ rows * cols := by
  unfold initialPool
  rw [List.length_flatMap]
  have h := List.sum_le_card_nsmul
    ((List.range rows).map (List.length ∘ fun (r : Nat) =>
      (List.range cols).filterMap fun (c : Nat) =>
        if isWallAt g (((r : Nat) : Int), ((c : Nat) : Int)) then none
        else some (((r : Nat) : Int), ((c : Nat) : Int)))) cols ?_
  · simpa [smul_eq_mul] using h
  · intro x hx
    simp only [List.mem_map] at hx
    obtain ⟨r, hr, hxe⟩ := hx
    rw [← hxe]
    exact le_trans (List.length_filterMap_le ..) (by simp)

theorem pool_length_succ {st : RunState} {u : Pos} {rest : List Pos}
    (hsort : st.pool.mergeSort (fun a b => distLe (st.dist a) (st.dist b)) = u :: rest) :
    st.pool.length = rest.length + 1 := by
  have h := @List.length_mergeSort Pos (fun a b => distLe (st.dist a) (st.dist b)) st.pool
  rw [hsort] at h
  simpa using h.symm

theorem loop_chain {N : Nat} {s : Pos} (wall : Pos → Bool) (nbrs : Pos → List Pos)
    (endP : Pos) (rfuel : Nat) (hrf : N ≤ rfuel) :
    ∀ (fuel : Nat) (st : RunState), ChainInv N s st →
      ChainInv N s (loop wall nbrs endP rfuel fuel st).final ∧
      ((loop wall nbrs endP rfuel fuel st).path = [] ∨
        (loop wall nbrs endP rfuel fuel st).path.head? = some s) := by
  intro fuel
  induction fuel with
  | zero =>
    intro st hinv
    exact ⟨hinv, Or.inl rfl⟩
  | succ n ih =>
    intro st hinv
    cases hsort : st.pool.mergeSort (fun a b => distLe (st.dist a) (st.dist b)) with
    | nil =>
      simp only [loop, hsort]
      exact ⟨hinv, Or.inl trivial⟩
    | cons u rest =>
      have hlen := pool_length_succ hsort
      cases hdu : st.dist u with
      | none =>
        simp only [loop, hsort, hdu]
        refine ⟨?_, Or.inl trivial⟩
        refine ⟨hinv.start_dist, hinv.start_prev, hinv.prev_ok, hinv.finite_prev,
          hinv.zero_unique, hinv.dist_bound, ?_⟩
        have := hinv.count_bound
        simp only
        omega
      | some du =>
        by_cases hue : u = endP
        · subst hue
          simp only [loop, hsort, hdu, if_pos rfl]
          have hfin := chainInv_finalize hinv hdu hlen
          refine ⟨hfin, Or.inr ?_⟩
          have hdub : du ≤ N := by
            have h1 := hinv.dist_bound u du hdu
            have h2 := hinv.count_bound
            omega
          exact (reconstruct_head_length hfin rfuel u du hdu (le_trans hdub hrf)).1
        · simp only [loop, hsort, hdu, if_neg hue]
          exact ih _ (chainInv_step hinv hdu hlen)

theorem chainInv_init (g : GridM) (rows cols : Nat) (s : Pos) :
    ChainInv (rows * cols) s (initState g rows cols s) := by
  refine ⟨by simp [initState], rfl, ?_, ?_, ?_, ?_, ?_⟩
  · intro v u hvu
    simp [initState] at hvu
  · intro v hvs d hd
    simp only [initState] at hd
    rw [if_neg hvs] at hd
    cases hd
  · intro v hd
    simp only [initState] at hd
    by_cases hvs : v = s
    · exact hvs
    · rw [if_neg hvs] at hd
      cases hd
  · intro v d hd
    simp only [initState] at hd
    by_cases hvs : v = s
    · rw [if_pos hvs] at hd
      cases hd
      exact Nat.le_refl 0
    · rw [if_neg hvs] at hd
      cases hd
  · simp only [initState]
    have := initialPool_length_le g rows cols
    omega

/-- C10: throughout every run the start cell keeps distance 0 and no
predecessor (relaxation assigns distances of at least 1, so the
strictly-less test never updates the start cell); consequently whenever a
path is reconstructed, the backward walk from the end cell terminates at
the start cell, which heads the reconstructed path. -/
theorem start_cell_invariant (g : GridM) (rows cols : Nat) (s e : Pos) :
    (∀ fuel,
      (loop (isWallAt g) (getNeighbors rows cols) e (rows * cols) fuel
          (initState g rows cols s)).final.dist s = some 0 ∧
      (loop (isWallAt g) (getNeighbors rows cols) e (rows * cols) fuel
          (initState g rows cols s)).final.prev s = none) ∧
    ((dijkstra g rows cols s e).path = [] ∨
      (dijkstra g rows cols s e).path.head? = some s) := by
  have hinit := chainInv_init g rows cols s
  constructor
  · intro fuel
    have h := loop_chain (isWallAt g) (getNeighbors rows cols) e (rows * cols)
      (Nat.le_refl _) fuel _ hinit
    exact ⟨h.1.start_dist, h.1.start_prev⟩
  · have h := loop_chain (isWallAt g) (getNeighbors rows cols) e (rows * cols)
      (Nat.le_refl _) (initState g rows cols s).pool.length _ hinit
    exact h.2

end PathFinder


namespace PathFinder

/-! ## Claim C2: finalization order has non-decreasing distances -/

theorem head_min {st : RunState} {u : Pos} {rest : List Pos}
    (hsort : st.pool.mergeSort (fun a b => distLe (st.dist a) (st.dist b)) = u :: rest) :
    ∀ v ∈ st.pool, distLe (st.dist u) (st.dist v) = true :=
  mergeSort_head_le (fun a b => distLe (st.dist a) (st.dist b))
    (fun a b c hab hbc => distLe_trans _ _ _ hab hbc)
    (fun a b => distLe_total _ _) hsort

theorem head_mem_pool {st : RunState} {u : Pos} {rest : List Pos}
    (hsort : st.pool.mergeSort (fun a b => distLe (st.dist a) (st.dist b)) = u :: rest) :
    u ∈ st.pool := by
  have hperm := List.mergeSort_perm st.pool (fun a b => distLe (st.dist a) (st.dist b))
  rw [hsort] at hperm
  exact hperm.mem_iff.mp (List.mem_cons_self u rest)

theorem rest_subset_pool {st : RunState} {u : Pos} {rest : List Pos}
    (hsort : st.pool.mergeSort (fun a b => distLe (st.dist a) (st.dist b)) = u :: rest) :
    ∀ v ∈ rest, v ∈ st.pool := by
  intro v hv
  have hperm := List.mergeSort_perm st.pool (fun a b => distLe (st.dist a) (st.dist b))
  rw [hsort] at hperm
  exact hperm.mem_iff.mp (List.mem_cons_of_mem u hv)

/-- The monotonicity invariant: the finalization trace is sorted and its
last entry bounds every pool distance from below. -/
def MonoInv (st : RunState) : Prop :=
  List.Chain' (· ≤ ·) (st.trace.map Prod.snd) ∧
  ∀ d, (st.trace.map Prod.snd).getLast? = some d →
    ∀ v ∈ st.pool, distLe (some d) (st.dist v) = true

theorem monoInv_append {st : RunState} {u : Pos} {du : Nat}
    (hinv : MonoInv st) (hu : u ∈ st.pool) (hdu : st.dist u = some du) :
    List.Chain' (· ≤ ·) ((st.trace ++ [(u, du)]).map Prod.snd) := by
  rw [List.map_append]
  rw [List.chain'_append]
  refine ⟨hinv.1, List.chain'_singleton du, ?_⟩
  intro x hx y hy
  simp only [List.map_cons, List.map_nil, List.head?_cons, Option.mem_def,
    Option.some.injEq] at hy
  subst hy
  have := hinv.2 x hx u hu
  rw [hdu] at this
  simpa [distLe] using this

theorem loop_mono (wall : Pos → Bool) (nbrs : Pos → List Pos) (endP : Pos) (rfuel : Nat) :
    ∀ (fuel : Nat) (st : RunState), MonoInv st →
      List.Chain' (· ≤ ·) ((loop wall nbrs endP rfuel fuel st).trace.map Prod.snd) := by
  intro fuel
  induction fuel with
  | zero =>
    intro st hinv
    exact hinv.1
  | succ n ih =>
    intro st hinv
    cases hsort : st.pool.mergeSort (fun a b => distLe (st.dist a) (st.dist b)) with
    | nil =>
      simp only [loop, hsort]
      exact hinv.1
    | cons u rest =>
      cases hdu : st.dist u with
      | none =>
        simp only [loop, hsort, hdu]
        exact hinv.1
      | some du =>
        have hu := head_mem_pool hsort
        have hmin := head_min hsort
        have happend := monoInv_append hinv hu hdu
        by_cases hue : u = endP
        · subst hue
          simp only [loop, hsort, hdu, if_pos rfl]
          exact happend
        · simp only [loop, hsort, hdu, if_neg hue]
          apply ih
          show MonoInv (relaxAll wall u du (nbrs u) (finalizeState st u du rest))
          have hfields := relaxAll_fields wall u du (nbrs u) (finalizeState st u du rest)
          have htr : (relaxAll wall u du (nbrs u) (finalizeState st u du rest)).trace =
              st.trace ++ [(u, du)] := hfields.2.2.2
          have hpl : (relaxAll wall u du (nbrs u) (finalizeState st u du rest)).pool = rest :=
            hfields.1
          constructor
          · rw [htr]
            exact happend
          · intro d hlast v hv
            rw [htr] at hlast
            simp only [List.map_append, List.map_cons, List.map_nil,
              List.getLast?_concat, Option.some.injEq] at hlast
            subst hlast
            rw [hpl] at hv
            have hvpool : v ∈ st.pool := rest_subset_pool hsort v hv
            have hmv := hmin v hvpool
            rw [hdu] at hmv
            rcases relaxAll_dist_prev wall u du (nbrs u) (finalizeState st u du rest) v with
              ⟨hd, _⟩ | ⟨_, _, _, hd, _, _⟩
            · rw [hd]
              exact hmv
            · rw [hd]
              simp [distLe]

/-- C2: during every search run the cells, in the order they are
finalized (shifted from the unvisited pool and marked visited), carry
monotonically non-decreasing distance values. -/
theorem finalized_distances_monotone (g : GridM) (rows cols : Nat) (s e : Pos) :
    List.Chain' (· ≤ ·) ((dijkstra g rows cols s e).trace.map Prod.snd) := by
  apply loop_mono
  constructor
  · simp [initState]
  · intro d hlast
    simp [initState] at hlast

end PathFinder


namespace PathFinder

/-! ## Claim C9: coinciding start and end -/

/-- C9: when the recorded start and end coordinates coincide (on a
non-wall in-bounds cell), the run finalizes the start cell in its first
iteration and succeeds immediately: path length 0, no path render
events, one visited cell. -/
theorem start_equals_end_run (g : GridM) (rows cols : Nat) (s : Pos)
    (hb : inBounds rows cols s) (hw : isWallAt g s = false) :
    (dijkstra g rows cols s s).pathLength = some 0 ∧
    (dijkstra g rows cols s s).pathEvents = [] ∧
    (dijkstra g rows cols s s).visitedCount = 1 ∧
    (dijkstra g rows cols s s).reason = TermReason.reachedEnd := by
  have hpool : s ∈ (initState g rows cols s).pool := by
    simp only [initState]
    exact mem_initialPool.mpr ⟨hb, hw⟩
  have hds : (initState g rows cols s).dist s = some 0 := by simp [initState]
  cases hsort : (initState g rows cols s).pool.mergeSort
      (fun a b => distLe ((initState g rows cols s).dist a)
        ((initState g rows cols s).dist b)) with
  | nil =>
    exfalso
    have hperm := List.mergeSort_perm (initState g rows cols s).pool
      (fun a b => distLe ((initState g rows cols s).dist a)
        ((initState g rows cols s).dist b))
    rw [hsort] at hperm
    have hmem := hperm.mem_iff.mpr hpool
    simp at hmem
  | cons u rest =>
    have hmin := head_min hsort s hpool
    rw [hds] at hmin
    cases hdu : (initState g rows cols s).dist u with
    | none =>
      rw [hdu] at hmin
      simp [distLe] at hmin
    | some du =>
      rw [hdu] at hmin
      have hdu0 : du = 0 := by simpa [distLe] using hmin
      subst hdu0
      have hus : u = s := by
        simp only [initState] at hdu
        by_cases h : u = s
        · exact h
        · rw [if_neg h] at hdu
          cases hdu
      subst hus
      have hlen := pool_length_succ hsort
      have hrec : ∀ f, reconstruct (initState g rows cols u).prev f u = [u] := by
        intro f
        cases f <;> simp [reconstruct, initState]
      unfold dijkstra
      rw [hlen]
      simp only [loop, hsort, hdu, if_pos rfl, hrec]
      simp [initState]

/-- Concrete instance of `start_equals_end_run` on a 1 × 1 grid. -/
theorem start_equals_end_run_witness :
    (dijkstra [[CellType.start]] 1 1 ((0 : Int), (0 : Int)) ((0 : Int), (0 : Int))).pathLength =
        some 0 ∧
    (dijkstra [[CellType.start]] 1 1 ((0 : Int), (0 : Int)) ((0 : Int), (0 : Int))).pathEvents =
        [] ∧
    (dijkstra [[CellType.start]] 1 1 ((0 : Int), (0 : Int)) ((0 : Int), (0 : Int))).visitedCount =
        1 ∧
    (dijkstra [[CellType.start]] 1 1 ((0 : Int), (0 : Int)) ((0 : Int), (0 : Int))).reason =
        TermReason.reachedEnd :=
  start_equals_end_run [[CellType.start]] 1 1 ((0 : Int), (0 : Int)) (by decide) (by decide)

end PathFinder


namespace PathFinder

/-! ## Claim C5: unreachable end cell -/

/-- Reachability in the non-wall grid graph: a walk from `s` through
grid neighbors that are not walls. -/
inductive Reaches (wall : Pos → Bool) (nbrs : Pos → List Pos) (s : Pos) : Pos → Nat → Prop where
  | refl : Reaches wall nbrs s s 0
  | step {p q : Pos} {n : Nat} : Reaches wall nbrs s p n → q ∈ nbrs p → wall q = false →
      Reaches wall nbrs s q (n + 1)

/-- Every finite tentative distance witnesses a walk from the start. -/
def ReachInv (wall : Pos → Bool) (nbrs : Pos → List Pos) (s : Pos) (st : RunState) : Prop :=
  ∀ v d, st.dist v = some d → Reaches wall nbrs s v d

theorem loop_unreachable {wall : Pos → Bool} {nbrs : Pos → List Pos} {s e : Pos} (rfuel : Nat)
    (hur : ∀ n, ¬ Reaches wall nbrs s e n) :
    ∀ (fuel : Nat) (st : RunState), ReachInv wall nbrs s st → e ∈ st.pool →
      fuel = st.pool.length →
      (loop wall nbrs e rfuel fuel st).pathLength = none ∧
      (loop wall nbrs e rfuel fuel st).reason = TermReason.infiniteMin := by
  intro fuel
  induction fuel with
  | zero =>
    intro st hinv hep hfl
    exfalso
    have hnil : st.pool = [] := List.length_eq_zero.mp hfl.symm
    rw [hnil] at hep
    simp at hep
  | succ n ih =>
    intro st hinv hep hfl
    cases hsort : st.pool.mergeSort (fun a b => distLe (st.dist a) (st.dist b)) with
    | nil =>
      exfalso
      have hperm := List.mergeSort_perm st.pool (fun a b => distLe (st.dist a) (st.dist b))
      rw [hsort] at hperm
      have hmem := hperm.mem_iff.mpr hep
      simp at hmem
    | cons u rest =>
      cases hdu : st.dist u with
      | none =>
        simp only [loop, hsort, hdu]
        exact ⟨trivial, trivial⟩
      | some du =>
        have hue : ¬ u = e := by
          intro h
          subst h
          exact hur du (hinv u du hdu)
        simp only [loop, hsort, hdu, if_neg hue]
        have hlen := pool_length_succ hsort
        apply ih
        · show ReachInv wall nbrs s (relaxAll wall u du (nbrs u) (finalizeState st u du rest))
          intro v d hd
          rcases relaxAll_dist_prev wall u du (nbrs u) (finalizeState st u du rest) v with
            ⟨hdv, _⟩ | ⟨_, hwv, hmem, hdv, _, _⟩
          · rw [hdv] at hd
            exact hinv v d hd
          · rw [hdv] at hd
            cases hd
            exact Reaches.step (hinv u du hdu) hmem hwv
        · show e ∈ (relaxAll wall u du (nbrs u) (finalizeState st u du rest)).pool
          rw [(relaxAll_fields wall u du (nbrs u) (finalizeState st u du rest)).1]
          have hperm := List.mergeSort_perm st.pool (fun a b => distLe (st.dist a) (st.dist b))
          rw [hsort] at hperm
          have hmem := hperm.symm.mem_iff.mp hep
          rcases List.mem_cons.mp hmem with h | h
          · exact absurd h.symm hue
          · exact h
        · show n = (relaxAll wall u du (nbrs u) (finalizeState st u du rest)).pool.length
          rw [(relaxAll_fields wall u du (nbrs u) (finalizeState st u du rest)).1]
          show n = rest.length
          omega

/-- C5: when the end cell (in bounds, not a wall) is unreachable from
the start through non-wall cells, the run's main loop terminates through
the infinite-minimum break and the terminal summary reports
`pathLength = none`; the embedded run is a total function, so no
exception arises. -/
theorem unreachable_reports_none (g : GridM) (rows cols : Nat) (s e : Pos)
    (hbe : inBounds rows cols e) (hwe : isWallAt g e = false)
    (hur : ∀ n, ¬ Reaches (isWallAt g) (getNeighbors rows cols) s e n) :
    (dijkstra g rows cols s e).pathLength = none ∧
    (dijkstra g rows cols s e).reason = TermReason.infiniteMin := by
  unfold dijkstra
  apply loop_unreachable _ hur
  · intro v d hd
    simp only [initState] at hd
    by_cases hvs : v = s
    · subst hvs
      rw [if_pos rfl] at hd
      cases hd
      exact Reaches.refl
    · rw [if_neg hvs] at hd
      cases hd
  · simp only [initState]
    exact mem_initialPool.mpr ⟨hbe, hwe⟩
  · rfl

/-- Concrete instance of `unreachable_reports_none`: a 1 × 3 corridor
whose middle cell is a wall separates start and end completely. -/
theorem unreachable_reports_none_witness :
    (dijkstra [[CellType.start, CellType.wall, CellType.«end»]] 1 3
        ((0 : Int), (0 : Int)) ((0 : Int), (2 : Int))).pathLength = none ∧
    (dijkstra [[CellType.start, CellType.wall, CellType.«end»]] 1 3
        ((0 : Int), (0 : Int)) ((0 : Int), (2 : Int))).reason = TermReason.infiniteMin := by
  apply unreachable_reports_none
  · decide
  · decide
  · intro n h
    have haux : ∀ v m,
        Reaches (isWallAt [[CellType.start, CellType.wall, CellType.«end»]])
          (getNeighbors 1 3) ((0 : Int), (0 : Int)) v m → v = ((0 : Int), (0 : Int)) := by
      intro v m hvm
      induction hvm with
      | refl => rfl
      | step hp hq hw ih =>
        rw [ih] at hq
        rw [show getNeighbors 1 3 ((0 : Int), (0 : Int)) = [((0 : Int), (1 : Int))] from by
          decide] at hq
        rcases List.mem_singleton.mp hq with rfl
        exact absurd hw (by decide)
    have := haux _ n h
    simp at this

end PathFinder


namespace PathFinder

/-! ## Claim C1: wall-free grids give Manhattan-distance paths -/

theorem manhattan_self (p : Pos) : manhattan p p = 0 := by
  simp [manhattan]

theorem manhattan_eq_zero {p q : Pos} (h : manhattan p q = 0) : p = q := by
  obtain ⟨p1, p2⟩ := p
  obtain ⟨q1, q2⟩ := q
  simp only [manhattan] at h
  have h1 : p1 = q1 := by omega
  have h2 : p2 = q2 := by omega
  rw [h1, h2]

theorem manhattan_adj {rows cols : Nat} {s v w : Pos}
    (hw : w ∈ getNeighbors rows cols v) :
    manhattan s w ≤ manhattan s v + 1 ∧ manhattan s v ≤ manhattan s w + 1 := by
  obtain ⟨hb, hd⟩ := mem_getNeighbors.mp hw
  obtain ⟨s1, s2⟩ := s
  obtain ⟨v1, v2⟩ := v
  rcases hd with h | h | h | h <;>
    · rw [h]
      simp only [manhattan]
      constructor <;> omega

theorem exists_step_toward {rows cols : Nat} {s u : Pos}
    (hs : inBounds rows cols s) (hu : inBounds rows cols u) (hne : manhattan s u ≠ 0) :
    ∃ v, inBounds rows cols v ∧ u ∈ getNeighbors rows cols v ∧
      v ∈ getNeighbors rows cols u ∧ manhattan s v + 1 = manhattan s u := by
  obtain ⟨s1, s2⟩ := s
  obtain ⟨u1, u2⟩ := u
  obtain ⟨hs1, hs2, hs3, hs4⟩ := hs
  obtain ⟨hu1, hu2, hu3, hu4⟩ := hu
  simp only [manhattan] at hne ⊢
  by_cases h1 : s1 < u1
  · refine ⟨(u1 - 1, u2), ⟨by omega, by omega, by omega, by omega⟩, ?_, ?_, by omega⟩
    · rw [mem_getNeighbors]
      exact ⟨⟨hu1, hu2, hu3, hu4⟩, Or.inr (Or.inr (Or.inl (by simp [Prod.ext_iff] <;> omega)))⟩
    · rw [mem_getNeighbors]
      exact ⟨⟨by omega, by omega, by omega, by omega⟩, Or.inl (by simp [Prod.ext_iff])⟩
  · by_cases h2 : u1 < s1
    · refine ⟨(u1 + 1, u2), ⟨by omega, by omega, by omega, by omega⟩, ?_, ?_, by omega⟩
      · rw [mem_getNeighbors]
        exact ⟨⟨hu1, hu2, hu3, hu4⟩, Or.inl (by simp [Prod.ext_iff] <;> omega)⟩
      · rw [mem_getNeighbors]
        exact ⟨⟨by omega, by omega, by omega, by omega⟩,
          Or.inr (Or.inr (Or.inl (by simp [Prod.ext_iff])))⟩
    · by_cases h3 : s2 < u2
      · refine ⟨(u1, u2 - 1), ⟨by omega, by omega, by omega, by omega⟩, ?_, ?_, by omega⟩
        · rw [mem_getNeighbors]
          exact ⟨⟨hu1, hu2, hu3, hu4⟩, Or.inr (Or.inl (by simp [Prod.ext_iff] <;> omega))⟩
        · rw [mem_getNeighbors]
          exact ⟨⟨by omega, by omega, by omega, by omega⟩,
            Or.inr (Or.inr (Or.inr (by simp [Prod.ext_iff])))⟩
      · have h4 : u2 < s2 := by omega
        refine ⟨(u1, u2 + 1), ⟨by omega, by omega, by omega, by omega⟩, ?_, ?_, by omega⟩
        · rw [mem_getNeighbors]
          exact ⟨⟨hu1, hu2, hu3, hu4⟩, Or.inr (Or.inr (Or.inr (by simp [Prod.ext_iff] <;> omega)))⟩
        · rw [mem_getNeighbors]
          exact ⟨⟨by omega, by omega, by omega, by omega⟩,
            Or.inr (Or.inl (by simp [Prod.ext_iff]))⟩

theorem listGet?_mem {α : Type} {l : List α} {i : Int} {a : α} (h : listGet? l i = some a) :
    a ∈ l := by
  unfold listGet? at h
  split at h
  · exact absurd h (by simp)
  · rw [List.get?_eq_getElem?] at h
    exact List.mem_iff_getElem?.mpr ⟨i.toNat, h⟩

theorem isWallAt_false_of_noWalls {g : GridM} (h : noWalls g = true) (p : Pos) :
    isWallAt g p = false := by
  unfold isWallAt
  cases hc : getCell? g p.1 p.2 with
  | none => rfl
  | some t =>
    cases hr : listGet? g p.1 with
    | none => simp [getCell?, hr] at hc
    | some row =>
      simp only [getCell?, hr] at hc
      have hrow : row ∈ g := listGet?_mem hr
      have ht : t ∈ row := listGet?_mem hc
      have := (List.all_eq_true.mp h) row hrow
      have htw := (List.all_eq_true.mp this) t ht
      simp only [decide_eq_true_eq] at htw
      cases t <;> simp_all


theorem relaxAll_keeps_bound (wall : Pos → Bool) (u : Pos) (du : Nat) (nbrs : List Pos)
    (st : RunState) (w : Pos) {dw : Nat}
    (h : st.dist w = some dw) (hle : dw ≤ du + 1) :
    ∃ dw2, (relaxAll wall u du nbrs st).dist w = some dw2 ∧ dw2 ≤ du + 1 := by
  rcases relaxAll_dist_prev wall u du nbrs st w with ⟨hd, _⟩ | ⟨_, _, _, hd, _, _⟩
  · exact ⟨dw, by rw [hd]; exact h, hle⟩
  · exact ⟨du + 1, hd, Nat.le_refl _⟩

theorem relaxAll_neighbor_bound (wall : Pos → Bool) (u : Pos) (du : Nat) (nbrs : List Pos)
    (st : RunState) :
    ∀ w ∈ nbrs, st.visitedFlag w = false → wall w = false →
      ∃ dw, (relaxAll wall u du nbrs st).dist w = some dw ∧ dw ≤ du + 1 := by
  induction nbrs generalizing st with
  | nil =>
    intro w hw
    simp at hw
  | cons w0 tl ih =>
    intro w hw hv hwl
    rcases List.mem_cons.mp hw with rfl | hwtl
    · have hstep : ∃ dw, (relaxCell wall u du st w).dist w = some dw ∧ dw ≤ du + 1 := by
        unfold relaxCell
        simp only [hv, hwl, Bool.or_self, Bool.false_eq_true, if_false]
        cases hlt : distLtN (du + 1) (st.dist w) with
        | true =>
          simp only [hlt, if_true]
          exact ⟨du + 1, by simp, Nat.le_refl _⟩
        | false =>
          simp only [hlt, Bool.false_eq_true, if_false]
          cases hdist : st.dist w with
          | none =>
            rw [hdist] at hlt
            simp [distLtN] at hlt
          | some dwv =>
            refine ⟨dwv, rfl, ?_⟩
            rw [hdist] at hlt
            simp only [distLtN, decide_eq_false_iff_not] at hlt
            omega
      obtain ⟨dw, hdw, hdwle⟩ := hstep
      simp only [relaxAll, List.foldl_cons]
      exact relaxAll_keeps_bound wall u du tl (relaxCell wall u du st w) w hdw hdwle
    · simp only [relaxAll, List.foldl_cons]
      have hv' : (relaxCell wall u du st w0).visitedFlag w = false := by
        rw [(relaxCell_fields wall u du st w0).2.1]
        exact hv
      exact ih (relaxCell wall u du st w0) w hwtl hv' hwl


/-- The wall-free-grid invariant of the main loop: visited cells carry
exactly their Manhattan distance from the start, every assigned distance
is bounded below by the Manhattan distance, every edge out of a visited
cell has been relaxed, and the pool is exactly the unvisited in-bounds
cells. -/
structure EmptyInv (rows cols : Nat) (s : Pos) (st : RunState) : Prop where
  vis_dist : ∀ v, st.visitedFlag v = true → st.dist v = some (manhattan s v)
  lower : ∀ v d, st.dist v = some d → manhattan s v ≤ d
  edge : ∀ v, st.visitedFlag v = true → ∀ w ∈ getNeighbors rows cols v,
    ∃ dw, st.dist w = some dw ∧ dw ≤ manhattan s v + 1
  pool_iff : ∀ p, p ∈ st.pool ↔ (inBounds rows cols p ∧ st.visitedFlag p = false)
  pool_nodup : st.pool.Nodup
  start_dist : st.dist s = some 0

theorem front_exists {rows cols : Nat} {s : Pos} {st : RunState}
    (hinv : EmptyInv rows cols s st) (hs : inBounds rows cols s) :
    ∀ (k : Nat) (u : Pos), inBounds rows cols u → manhattan s u = k →
      st.visitedFlag u = false →
      ∃ w dw, inBounds rows cols w ∧ st.visitedFlag w = false ∧
        manhattan s w ≤ k ∧ st.dist w = some dw ∧ dw ≤ manhattan s w := by
  intro k
  induction k with
  | zero =>
    intro u hu hman hvis
    have hus : s = u := manhattan_eq_zero hman
    subst hus
    exact ⟨s, 0, hu, hvis, by omega, hinv.start_dist, by simp [manhattan_self]⟩
  | succ k ih =>
    intro u hu hman hvis
    obtain ⟨v, hvb, huv, hvu, hmv⟩ := exists_step_toward hs hu (by omega)
    have hmvk : manhattan s v = k := by omega
    cases hvisv : st.visitedFlag v with
    | false =>
      obtain ⟨w, dw, hwb, hwvis, hwle, hdw, hdwle⟩ := ih v hvb hmvk hvisv
      exact ⟨w, dw, hwb, hwvis, by omega, hdw, hdwle⟩
    | true =>
      obtain ⟨dw, hdw, hle⟩ := hinv.edge v hvisv u huv
      exact ⟨u, dw, hu, hvis, by omega, hdw, by omega⟩

theorem selection_dist {rows cols : Nat} {s : Pos} {st : RunState}
    (hinv : EmptyInv rows cols s st) (hs : inBounds rows cols s)
    {u : Pos} {rest : List Pos}
    (hsort : st.pool.mergeSort (fun a b => distLe (st.dist a) (st.dist b)) = u :: rest) :
    st.dist u = some (manhattan s u) := by
  have hu_pool := head_mem_pool hsort
  obtain ⟨hub, huvis⟩ := (hinv.pool_iff u).mp hu_pool
  obtain ⟨w, dw, hwb, hwvis, hwle, hdw, hdwle⟩ :=
    front_exists hinv hs (manhattan s u) u hub rfl huvis
  have hw_pool : w ∈ st.pool := (hinv.pool_iff w).mpr ⟨hwb, hwvis⟩
  have hmin := head_min hsort w hw_pool
  rw [hdw] at hmin
  cases hdu : st.dist u with
  | none =>
    rw [hdu] at hmin
    simp [distLe] at hmin
  | some du =>
    rw [hdu] at hmin
    have hle1 : du ≤ dw := by simpa [distLe] using hmin
    have hlow := hinv.lower u du hdu
    have hdum : du = manhattan s u := by omega
    rw [hdum]


theorem emptyInv_step {rows cols : Nat} {s : Pos} {wall : Pos → Bool} {st : RunState}
    {u : Pos} {du : Nat} {rest : List Pos}
    (hwall : ∀ p, wall p = false)
    (hinv : EmptyInv rows cols s st)
    (hsort : st.pool.mergeSort (fun a b => distLe (st.dist a) (st.dist b)) = u :: rest)
    (hdu : st.dist u = some du) (hdum : du = manhattan s u) :
    EmptyInv rows cols s
      (relaxAll wall u du (getNeighbors rows cols u) (finalizeState st u du rest)) := by
  have hfields := relaxAll_fields wall u du (getNeighbors rows cols u) (finalizeState st u du rest)
  have hvf2 := hfields.2.1
  have hpool2 := hfields.1
  have hsnd : (u :: rest).Nodup := by
    rw [← hsort]
    exact (List.mergeSort_perm st.pool (fun a b => distLe (st.dist a) (st.dist b))).symm.nodup
      hinv.pool_nodup
  have hunotin : u ∉ rest := (List.nodup_cons.mp hsnd).1
  have hvf1 : ∀ v, (finalizeState st u du rest).visitedFlag v =
      if v = u then true else st.visitedFlag v := fun v => rfl
  have hd1 : ∀ v, (finalizeState st u du rest).dist v = st.dist v := fun v => rfl
  have hdist_vis : ∀ v, (finalizeState st u du rest).visitedFlag v = true →
      (relaxAll wall u du (getNeighbors rows cols u) (finalizeState st u du rest)).dist v =
        st.dist v := by
    intro v hv
    rcases relaxAll_dist_prev wall u du (getNeighbors rows cols u)
      (finalizeState st u du rest) v with ⟨hd, _⟩ | ⟨hvf, _, _, _, _, _⟩
    · rw [hd]
      exact hd1 v
    · rw [hv] at hvf
      cases hvf
  have hedge_u : ∀ w ∈ getNeighbors rows cols u,
      ∃ dw, (relaxAll wall u du (getNeighbors rows cols u)
          (finalizeState st u du rest)).dist w = some dw ∧ dw ≤ manhattan s u + 1 := by
    intro w hw
    cases hw1 : (finalizeState st u du rest).visitedFlag w with
    | true =>
      have hdw2 := hdist_vis w hw1
      rw [hvf1 w] at hw1
      by_cases hwu : w = u
      · subst hwu
        refine ⟨du, by rw [hdw2]; exact hdu, by omega⟩
      · rw [if_neg hwu] at hw1
        refine ⟨manhattan s w, by rw [hdw2]; exact hinv.vis_dist w hw1, ?_⟩
        have := (manhattan_adj (s := s) hw).1
        omega
    | false =>
      obtain ⟨dw, hdw, hdwle⟩ := relaxAll_neighbor_bound wall u du
        (getNeighbors rows cols u) (finalizeState st u du rest) w hw hw1 (hwall w)
      exact ⟨dw, hdw, by omega⟩
  refine ⟨?_, ?_, ?_, ?_, ?_, ?_⟩
  · intro v hv2
    rw [hvf2] at hv2
    rw [hdist_vis v hv2]
    rw [hvf1 v] at hv2
    by_cases hvu : v = u
    · subst hvu
      rw [hdu, hdum]
    · rw [if_neg hvu] at hv2
      exact hinv.vis_dist v hv2
  · intro v d hd2
    rcases relaxAll_dist_prev wall u du (getNeighbors rows cols u)
      (finalizeState st u du rest) v with ⟨hd, _⟩ | ⟨_, _, hmem, hd, _, _⟩
    · rw [hd, hd1 v] at hd2
      exact hinv.lower v d hd2
    · rw [hd] at hd2
      cases hd2
      have := (manhattan_adj (s := s) hmem).1
      omega
  · intro v hv2 w hw
    rw [hvf2, hvf1 v] at hv2
    by_cases hvu : v = u
    · rw [hvu]
      exact hedge_u w (hvu ▸ hw)
    · rw [if_neg hvu] at hv2
      obtain ⟨dw, hdw, hdwle⟩ := hinv.edge v hv2 w hw
      rcases relaxAll_dist_prev wall u du (getNeighbors rows cols u)
        (finalizeState st u du rest) w with ⟨hd, _⟩ | ⟨_, _, _, hd, _, hlt⟩
      · exact ⟨dw, by rw [hd, hd1 w]; exact hdw, hdwle⟩
      · refine ⟨du + 1, hd, ?_⟩
        rw [hd1 w, hdw] at hlt
        simp only [distLtN, decide_eq_true_eq] at hlt
        omega
  · intro p
    rw [hpool2, hvf2, hvf1 p]
    constructor
    · intro hp
      have hpu : p ≠ u := fun hc => hunotin (hc ▸ hp)
      have hppool : p ∈ st.pool := rest_subset_pool hsort p hp
      obtain ⟨hb, hv⟩ := (hinv.pool_iff p).mp hppool
      rw [if_neg hpu]
      exact ⟨hb, hv⟩
    · rintro ⟨hb, hv⟩
      by_cases hpu : p = u
      · rw [if_pos hpu] at hv
        cases hv
      · rw [if_neg hpu] at hv
        have hppool : p ∈ st.pool := (hinv.pool_iff p).mpr ⟨hb, hv⟩
        have hperm := List.mergeSort_perm st.pool (fun a b => distLe (st.dist a) (st.dist b))
        rw [hsort] at hperm
        rcases List.mem_cons.mp (hperm.symm.mem_iff.mp hppool) with h | h
        · exact absurd h hpu
        · exact h
  · rw [hpool2]
    exact (List.nodup_cons.mp hsnd).2
  · rcases relaxAll_dist_prev wall u du (getNeighbors rows cols u)
      (finalizeState st u du rest) s with ⟨hd, _⟩ | ⟨_, _, _, _, _, hlt⟩
    · rw [hd, hd1 s]
      exact hinv.start_dist
    · rw [hd1 s, hinv.start_dist] at hlt
      simp [distLtN] at hlt


theorem loop_empty_manhattan {N rows cols : Nat} {s e : Pos} {wall : Pos → Bool} (rfuel : Nat)
    (hwall : ∀ p, wall p = false) (hs : inBounds rows cols s) (hrf : N ≤ rfuel) :
    ∀ (fuel : Nat) (st : RunState), EmptyInv rows cols s st → ChainInv N s st →
      e ∈ st.pool → fuel = st.pool.length →
      (loop wall (getNeighbors rows cols) e rfuel fuel st).pathLength =
        some (manhattan s e) := by
  intro fuel
  induction fuel with
  | zero =>
    intro st hinv hcinv hep hfl
    exfalso
    have hnil : st.pool = [] := List.length_eq_zero.mp hfl.symm
    rw [hnil] at hep
    simp at hep
  | succ n ih =>
    intro st hinv hcinv hep hfl
    cases hsort : st.pool.mergeSort (fun a b => distLe (st.dist a) (st.dist b)) with
    | nil =>
      exfalso
      have hperm := List.mergeSort_perm st.pool (fun a b => distLe (st.dist a) (st.dist b))
      rw [hsort] at hperm
      have hmem := hperm.mem_iff.mpr hep
      simp at hmem
    | cons u rest =>
      have hlen := pool_length_succ hsort
      have hsel := selection_dist hinv hs hsort
      cases hdu : st.dist u with
      | none =>
        rw [hdu] at hsel
        cases hsel
      | some du =>
        have hdum : du = manhattan s u := by
          rw [hdu] at hsel
          exact Option.some_inj.mp hsel
        by_cases hue : u = e
        · subst hue
          simp only [loop, hsort, hdu, if_pos rfl]
          have hfin := chainInv_finalize hcinv hdu hlen
          have hdub : du ≤ N := by
            have h1 := hcinv.dist_bound u du hdu
            have h2 := hcinv.count_bound
            omega
          have hrec := reconstruct_head_length hfin rfuel u du hdu (le_trans hdub hrf)
          have hrec2 : (reconstruct st.prev rfuel u).length = du + 1 := hrec.2
          rw [hrec2]
          simp [hdum]
        · simp only [loop, hsort, hdu, if_neg hue]
          apply ih
          · show EmptyInv rows cols s
              (relaxAll wall u du (getNeighbors rows cols u) (finalizeState st u du rest))
            exact emptyInv_step hwall hinv hsort hdu hdum
          · show ChainInv N s
              (relaxAll wall u du (getNeighbors rows cols u) (finalizeState st u du rest))
            exact chainInv_step hcinv hdu hlen
          · show e ∈ (relaxAll wall u du (getNeighbors rows cols u)
              (finalizeState st u du rest)).pool
            rw [(relaxAll_fields wall u du (getNeighbors rows cols u)
              (finalizeState st u du rest)).1]
            show e ∈ rest
            have hperm := List.mergeSort_perm st.pool (fun a b => distLe (st.dist a) (st.dist b))
            rw [hsort] at hperm
            rcases List.mem_cons.mp (hperm.symm.mem_iff.mp hep) with h | h
            · exact absurd h.symm hue
            · exact h
          · show n = (relaxAll wall u du (getNeighbors rows cols u)
              (finalizeState st u du rest)).pool.length
            rw [(relaxAll_fields wall u du (getNeighbors rows cols u)
              (finalizeState st u du rest)).1]
            show n = rest.length
            omega

theorem emptyInv_init (g : GridM) (rows cols : Nat) (s : Pos)
    (hwall : ∀ p, isWallAt g p = false) :
    EmptyInv rows cols s (initState g rows cols s) := by
  refine ⟨?_, ?_, ?_, ?_, ?_, ?_⟩
  · intro v hv
    simp [initState] at hv
  · intro v d hd
    simp only [initState] at hd
    by_cases hvs : v = s
    · subst hvs
      rw [if_pos rfl] at hd
      cases hd
      simp [manhattan_self]
    · rw [if_neg hvs] at hd
      cases hd
  · intro v hv
    simp [initState] at hv
  · intro p
    simp only [initState]
    rw [mem_initialPool]
    simp [hwall p]
  · simp only [initState]
    exact nodup_initialPool
  · simp [initState]

/-- C1: on a grid containing no wall cells, with the start and end cells
in bounds, the run reports a path length equal to the Manhattan distance
between start and end. -/
theorem empty_grid_path_length_manhattan (g : GridM) (rows cols : Nat) (s e : Pos)
    (hg : noWalls g = true) (hs : inBounds rows cols s) (he : inBounds rows cols e) :
    (dijkstra g rows cols s e).pathLength = some (manhattan s e) := by
  have hwall := isWallAt_false_of_noWalls hg
  unfold dijkstra
  apply loop_empty_manhattan (N := rows * cols) (rows * cols) hwall hs (Nat.le_refl _)
  · exact emptyInv_init g rows cols s hwall
  · exact chainInv_init g rows cols s
  · simp only [initState]
    exact mem_initialPool.mpr ⟨he, hwall e⟩
  · rfl

/-- Concrete instance of `empty_grid_path_length_manhattan`: a wall-free
1 × 2 grid, start at (0,0) and end at (0,1), reports path length 1. -/
theorem empty_grid_path_length_manhattan_witness :
    (dijkstra [[CellType.start, CellType.«end»]] 1 2 ((0 : Int), (0 : Int))
        ((0 : Int), (1 : Int))).pathLength =
      some (manhattan ((0 : Int), (0 : Int)) ((0 : Int), (1 : Int))) ∧
    manhattan ((0 : Int), (0 : Int)) ((0 : Int), (1 : Int)) = 1 :=
  ⟨empty_grid_path_length_manhattan [[CellType.start, CellType.«end»]] 1 2
      ((0 : Int), (0 : Int)) ((0 : Int), (1 : Int)) (by decide) (by decide) (by decide),
    by decide⟩

end PathFinder
